import Mathlib

/-!
# Verification of the vehicle-information-service signal-subscription engine

A shallow embedding of the core of the `vehicle-information-service` crate:
the filter evaluator (`src/filter.rs`), the signal manager / subscription
registry (`src/signal_manager.rs` and `src/action/*.rs`), the case-insensitive
path type and the request-id wire codec (`src/api_type.rs`).

Modelling conventions:
* `serde_json::Number` is the three-lane tower `SNumber` (unsigned integer,
  negative integer, float).  The float lane is idealised as exact rationals;
  none of the properties proved here depend on IEEE rounding.
* Machine integers wrap explicitly: u64 subtraction is `(a + 2^64 - b) % 2^64`,
  i64 results are reduced into `[-2^63, 2^63)`.
* `SystemTime` is a natural number of milliseconds since the epoch;
  `Duration` is a natural number of milliseconds.
* `serde_json::Value` objects are represented by their canonical (BTreeMap
  key-sorted) field sequence, so structural equality coincides with
  `serde_json`'s order-insensitive map equality.
* Actor mailboxes (`do_send`) are modelled as explicit effect lists; actix
  `Addr<ClientSession>` and minted subscription ids are opaque and modelled
  as naturals.
-/

/-- i64::MAX. -/
def i64Max : Nat := 9223372036854775807

/-- The modulus 2^64 of u64 arithmetic. -/
def u64Mod : Nat := 18446744073709551616

/-- The constant 2^63, used to reduce i64 results. -/
def i64Half : Int := 9223372036854775808

/-- Reduce an integer into the i64 range `[-2^63, 2^63)` (wrapping semantics). -/
def wrapI64 (z : Int) : Int := ((z + i64Half) % (2 * i64Half)) - i64Half

/-- Embeds `serde_json::Number`: the enum `N { PosInt(u64), NegInt(i64), Float(f64) }`.
The float lane is idealised as an exact rational. -/
inductive SNumber where
  | posInt : Nat → SNumber
  | negInt : Int → SNumber
  | float : Rat → SNumber
  deriving DecidableEq, Repr

namespace SNumber

/-- Embeds `serde_json`'s `From<i64> for Number`: non-negative values land in the
unsigned lane. -/
def ofI64 (i : Int) : SNumber :=
  if 0 ≤ i then .posInt i.toNat else .negInt i

/-- Embeds `Number::is_u64`. -/
def isU64 : SNumber → Bool
  | .posInt _ => true
  | _ => false

/-- Embeds `Number::is_i64`. -/
def isI64 : SNumber → Bool
  | .posInt n => decide (n ≤ i64Max)
  | .negInt _ => true
  | .float _ => false

/-- Embeds `Number::as_u64`. -/
def asU64 : SNumber → Option Nat
  | .posInt n => some n
  | _ => none

/-- Embeds `Number::as_i64`. -/
def asI64 : SNumber → Option Int
  | .posInt n => if n ≤ i64Max then some n else none
  | .negInt i => some i
  | .float _ => none

/-- Embeds `Number::as_f64` (always succeeds; idealised as an exact rational). -/
def asF64 : SNumber → Option Rat
  | .posInt n => some n
  | .negInt i => some i
  | .float q => some q

/-- Embeds `impl Sub for SerdeNumber` (filter.rs): u64 lane uses `wrapping_sub`,
i64 lane uses `wrapping_sub`, the float fallback computes
`|a| - |b|` of the float casts. -/
def sub (a b : SNumber) : SNumber :=
  if a.isU64 && b.isU64 then
    .posInt ((a.asU64.getD 0 + u64Mod - b.asU64.getD 0) % u64Mod)
  else if a.isI64 && b.isI64 then
    ofI64 (wrapI64 (a.asI64.getD 0 - b.asI64.getD 0))
  else
    .float (|a.asF64.getD 0| - |b.asF64.getD 0|)

/-- Embeds `SerdeNumber::abs` (filter.rs). -/
def abs (a : SNumber) : SNumber :=
  if a.isU64 then a
  else if a.isI64 then ofI64 (wrapI64 |a.asI64.getD 9999|)
  else .float |a.asF64.getD 0|

/-- Embeds `impl PartialEq for SerdeNumber` (filter.rs): lane-directed comparison with
float fallback. -/
def snEq (a b : SNumber) : Bool :=
  if a.isU64 && b.isU64 then a.asU64 == b.asU64
  else if a.isI64 && b.isI64 then a.asI64 == b.asI64
  else a.asF64 == b.asF64

/-- Embeds `impl PartialOrd for SerdeNumber` (filter.rs). -/
def cmpOpt (a b : SNumber) : Option Ordering :=
  if a.isU64 && b.isU64 then some (compare (a.asU64.getD 0) (b.asU64.getD 0))
  else if a.isI64 && b.isI64 then some (compare (a.asI64.getD 0) (b.asI64.getD 0))
  else a.asF64.bind fun x => b.asF64.map fun y => compare x y

/-- Embeds `PartialOrd::ge`, the `>=` used by `is_min_change`. -/
def sGe (a b : SNumber) : Bool :=
  match a.cmpOpt b with
  | some .gt => true
  | some .eq => true
  | _ => false

/-- Embeds `PartialOrd::le`, the `<=` used by the range filter. -/
def sLe (a b : SNumber) : Bool :=
  match a.cmpOpt b with
  | some .lt => true
  | some .eq => true
  | _ => false

end SNumber

/-- Embeds `serde_json::Value`.  Objects carry their canonical key-sorted field list,
so derived structural equality models `serde_json`'s deep equality. -/
inductive Json where
  | null
  | bool (b : Bool)
  | num (n : SNumber)
  | str (s : String)
  | arr (xs : List Json)
  | obj (fields : List (String × Json))
  deriving Repr

mutual

/-- Embeds `serde_json::Value`'s `PartialEq` (deep JSON equality; objects compare
their canonical field sequences). -/
def jsonBeq : Json → Json → Bool
  | .null, .null => true
  | .bool a, .bool b => a == b
  | .num a, .num b => a == b
  | .str a, .str b => a == b
  | .arr xs, .arr ys => jsonListBeq xs ys
  | .obj fs, .obj gs => jsonFieldsBeq fs gs
  | _, _ => false

/-- Element-wise equality of JSON arrays. -/
def jsonListBeq : List Json → List Json → Bool
  | [], [] => true
  | x :: xs, y :: ys => jsonBeq x y && jsonListBeq xs ys
  | _, _ => false

/-- Field-wise equality of canonical JSON objects. -/
def jsonFieldsBeq : List (String × Json) → List (String × Json) → Bool
  | [], [] => true
  | (k, v) :: fs, (l, w) :: gs => k == l && jsonBeq v w && jsonFieldsBeq fs gs
  | _, _ => false

end

/-- Embeds `api_type::FilterRange`. -/
structure FilterRange where
  below : Option SNumber
  above : Option SNumber
  deriving DecidableEq, Repr

/-- Embeds `api_type::Filters`. -/
structure Filters where
  interval : Option Nat
  range : Option FilterRange
  min_change : Option SNumber
  deriving DecidableEq, Repr

/-- Embeds `filter::Error`. -/
inductive FilterError where
  | valueIsNotANumber
  deriving DecidableEq, Repr

/-- Embeds `filter::value_as_number`. -/
def value_as_number : Json → Except FilterError SNumber
  | .num n => .ok n
  | _ => .error .valueIsNotANumber

/-- Embeds `std::time::Duration::from_millis`, in the milliseconds model. -/
def durationFromMillis (i : Nat) : Nat := i

/-- Embeds `std::time::Duration::from_secs`, in the milliseconds model. -/
def durationFromSecs (i : Nat) : Nat := 1000 * i

/-- Embeds `SystemTime::duration_since`: fails (Err) when `now` is earlier than `t`. -/
def durationSince (now t : Nat) : Option Nat :=
  if t ≤ now then some (now - t) else none

/-- Embeds `filter::interval`: the sample-interval gate.  Mirrors
`now.duration_since(v.0).ok().and_then(|d| filters.interval.map(|i|
Duration::from_millis(i) <= *d)).unwrap_or(true)`. -/
def interval (now : Nat) (last_value : Option (Nat × Json)) (filters : Filters) : Bool :=
  match last_value with
  | none => true
  | some v =>
    match (durationSince now v.1).bind
        (fun d => filters.interval.map (fun i => decide (durationFromMillis i ≤ d))) with
    | some b => b
    | none => true

/-- Embeds `filter::is_in_filter_range`. -/
def is_in_filter_range (val : Json) (filters : Filters) : Except FilterError Bool :=
  match filters.range with
  | some range => do
    let num ← value_as_number val
    let below := match range.below with
      | some b => num.sLe b
      | none => true
    let above := match range.above with
      | some a => num.sGe a
      | none => true
    return (below && above)
  | none => .ok true

/-- Embeds `filter::is_min_change`. -/
def is_min_change (val : Json) (last_value : Option (Nat × Json)) (filters : Filters) :
    Except FilterError Bool :=
  match filters.min_change with
  | some filter_min_change =>
    match last_value with
    | some (_time, value) => do
      let num ← value_as_number val
      let asNumber ← value_as_number value
      return ((asNumber.sub num).abs.sGe filter_min_change)
    | none => .ok true
  | none => .ok true

/-- The change gate of `filter::matches`:
`last_value.as_ref().map_or(true, |v| val != &v.1)`. -/
def changedExp (val : Json) (last_value : Option (Nat × Json)) : Bool :=
  match last_value with
  | none => true
  | some v => !(jsonBeq val v.2)

/-- Embeds `filter::matches`.  `SystemTime::now()` is passed explicitly.  (`matches`
is a reserved token in Lean, hence the name.) -/
def filterMatches (now : Nat) (val : Json) (last_value : Option (Nat × Json))
    (filters_opt : Option Filters) : Except FilterError Bool := do
  let changed_exp := changedExp val last_value
  let filters_exp ←
    match filters_opt with
    | some filters => do
      let interval_exp := interval now last_value filters
      let range_exp ← is_in_filter_range val filters
      let min_change_exp ← is_min_change val last_value filters
      let range_min_exp := range_exp && min_change_exp
      pure (interval_exp && range_min_exp)
    | none => pure true
  return (changed_exp && filters_exp)

/-! ## Case-insensitive signal paths (`api_type::ActionPath`) -/

/-- The lowercase fold by which `ActionPath` compares and hashes (ASCII model
of `str::to_lowercase`). -/
def pathKey (p : String) : String := String.mk (p.data.map Char.toLower)

/-- Embeds `impl PartialEq for ActionPath`: equality of lowercase folds. -/
def pathEq (p q : String) : Bool := pathKey p == pathKey q

/-- Embeds `impl Hash for ActionPath`: the hash of a path is the hash of its
lowercase fold, for any hasher. -/
def pathHash (hashFn : String → Nat) (p : String) : Nat := hashFn (pathKey p)

/-! ## Association-list model of the engine's `HashMap`s

Lookup sees the first matching entry; keys are unique by construction, so
these are faithful to `std::collections::HashMap`.  The `p`-prefixed variants
are keyed by `ActionPath`'s case-insensitive equality. -/

def alookup {κ α : Type} [DecidableEq κ] : List (κ × α) → κ → Option α
  | [], _ => none
  | (k, v) :: rest, key => if k = key then some v else alookup rest key

/-- Embeds `HashMap::get_mut` followed by an in-place mutation: update the entry if
present, otherwise do nothing. -/
def aupdate {κ α : Type} [DecidableEq κ] : List (κ × α) → κ → (α → α) → List (κ × α)
  | [], _, _ => []
  | (k, v) :: rest, key, f => if k = key then (k, f v) :: rest else (k, v) :: aupdate rest key f

/-- Embeds `HashMap::insert`. -/
def ainsert {κ α : Type} [DecidableEq κ] : List (κ × α) → κ → α → List (κ × α)
  | [], key, v => [(key, v)]
  | (k, w) :: rest, key, v => if k = key then (k, v) :: rest else (k, w) :: ainsert rest key v

/-- Embeds `HashMap::remove`. -/
def aerase {κ α : Type} [DecidableEq κ] : List (κ × α) → κ → List (κ × α)
  | [], _ => []
  | (k, v) :: rest, key => if k = key then rest else (k, v) :: aerase rest key

def plookup {α : Type} : List (String × α) → String → Option α
  | [], _ => none
  | (k, v) :: rest, key => if pathEq k key then some v else plookup rest key

def pupdate {α : Type} : List (String × α) → String → (α → α) → List (String × α)
  | [], _, _ => []
  | (k, v) :: rest, key, f =>
    if pathEq k key then (k, f v) :: rest else (k, v) :: pupdate rest key f

/-- Embeds `HashMap::insert` on a path-keyed map: replaces the value but keeps the
originally inserted key. -/
def pinsert {α : Type} : List (String × α) → String → α → List (String × α)
  | [], key, v => [(key, v)]
  | (k, w) :: rest, key, v =>
    if pathEq k key then (k, v) :: rest else (k, w) :: pinsert rest key v

/-! ## Request ids (`api_type::ReqID`), used opaquely by the engine -/

/-- The size 2^128 of the UUID value space. -/
def uuidMod : Nat := 340282366920938463463374607431768211456

/-- Embeds `api_type::ReqID`: a request id is a u64 integer or a 128-bit UUID.  Both
lanes are naturals; the u64/u128 bounds appear as explicit hypotheses where
they matter. -/
inductive ReqID where
  | int (n : Nat)
  | uuid (u : Nat)
  deriving DecidableEq

/-- The machine-representable request ids (`u64` / 128-bit UUID ranges). -/
def ReqIDWf : ReqID → Prop
  | .int n => n < u64Mod
  | .uuid u => u < uuidMod

/-! ## The signal manager (`signal_manager.rs` and `action/*.rs`)

Sessions (`Addr<ClientSession>`) and minted subscription ids are opaque:
both are modelled as naturals.  The entry
`subscription_id_to_subscription : id → (Addr<Subscription>, Addr<ClientSession>, ActionPath)`
keeps the two components the handlers read — the owning session and the path —
while `do_send` calls on the subscription actor address become
`Effect.stopSubscription` / `Effect.notifySubscriber` effects. -/

abbrev SessionId := Nat
abbrev SubId := Nat

/-- Embeds `api_error::KnownError` as it appears in response bodies. -/
structure ErrorBody where
  number : Nat
  reason : String
  message : String
  deriving DecidableEq, Repr

def NOT_FOUND_INVALID_PATH : ErrorBody :=
  ⟨404, "invalid_path", "The specified data path does not exist."⟩

def NOT_FOUND_INVALID_SUBSCRIPTION_ID : ErrorBody :=
  ⟨404, "invalid_subscriptionId", "The specified subscription was not found."⟩

def BAD_REQUEST_FILTER_INVALID : ErrorBody :=
  ⟨400, "filter_invalid", "Filter requested on non-primitive type."⟩

/-- Outbound frames sent to a client session (timestamps, which are
write-only wall-clock data, are omitted). -/
inductive OutMsg where
  | getSuccess (request_id : ReqID) (value : Json)
  | getError (request_id : ReqID) (error : ErrorBody)
  | subscribeSuccess (request_id : ReqID) (subscription_id : SubId)
  | unsubscribeSuccess (request_id : ReqID) (subscription_id : SubId)
  | unsubscribeError (request_id : ReqID) (subscription_id : SubId) (error : ErrorBody)
  | unsubscribeAllSuccess (request_id : ReqID)
  | subscriptionNotify (subscription_id : SubId) (value : Json)
  | subscriptionError (subscription_id : SubId) (error : ErrorBody)

/-- One `do_send` performed by a handler, in emission order. -/
inductive Effect where
  | sendClient (session : SessionId) (msg : OutMsg)
  | stopSubscription (id : SubId)
  | notifySubscriber (id : SubId) (value : Json)

/-- The `SignalManager` actor state (the `set_recipients` map, untouched by
the claims under verification, is omitted). -/
structure SignalManager where
  signal_cache : List (String × Json)
  addr_to_subscription_ids : List (SessionId × List SubId)
  path_to_subscription_id : List (String × List SubId)
  subscription_id_to_subscription : List (SubId × (SessionId × String))

/-- Embeds `Handler<ClientMessage<Get>> for SignalManager`. -/
def handleGet (s : SignalManager) (client : SessionId) (path : String)
    (request_id : ReqID) : SignalManager × List Effect :=
  match plookup s.signal_cache path with
  | some signal => (s, [.sendClient client (.getSuccess request_id signal)])
  | none => (s, [.sendClient client (.getError request_id NOT_FOUND_INVALID_PATH)])

/-- Embeds `Handler<UpdateSignal> for SignalManager`: notify each subscriber
registered for the path, then overwrite the cache entry. -/
def handleUpdateSignal (s : SignalManager) (path : String) (value : Json) :
    SignalManager × List Effect :=
  let ids := (plookup s.path_to_subscription_id path).getD []
  let effs := ids.filterMap fun id =>
    match alookup s.subscription_id_to_subscription id with
    | none => none
    | some _ => some (Effect.notifySubscriber id value)
  ({ s with signal_cache := pinsert s.signal_cache path value }, effs)

/-- Embeds `Handler<ClientMessage<Subscribe>> for SignalManager`; the freshly minted
`subscription_id` (`Uuid::new_v4()` in the source) is passed in by the
system-level step function. -/
def handleSubscribe (s : SignalManager) (client : SessionId) (path : String)
    (request_id : ReqID) (subscription_id : SubId) : SignalManager × List Effect :=
  let addrMap := match alookup s.addr_to_subscription_ids client with
    | some _ => aupdate s.addr_to_subscription_ids client (fun l => l ++ [subscription_id])
    | none => s.addr_to_subscription_ids ++ [(client, [subscription_id])]
  let subMap := ainsert s.subscription_id_to_subscription subscription_id (client, path)
  let pathMap := match plookup s.path_to_subscription_id path with
    | some _ => pupdate s.path_to_subscription_id path (fun l => l ++ [subscription_id])
    | none => s.path_to_subscription_id ++ [(path, [subscription_id])]
  ({ s with addr_to_subscription_ids := addrMap,
            subscription_id_to_subscription := subMap,
            path_to_subscription_id := pathMap },
   [.sendClient client (.subscribeSuccess request_id subscription_id)])

/-- Embeds `Handler<ClientMessage<Unsubscribe>> for SignalManager`: ownership check
against `addr_to_subscription_ids`, then removal from all three indexes. -/
def handleUnsubscribe (s : SignalManager) (client : SessionId) (request_id : ReqID)
    (subscription_id : SubId) : SignalManager × List Effect :=
  let addr_subscriptions := (alookup s.addr_to_subscription_ids client).getD []
  if ¬ addr_subscriptions.contains subscription_id then
    (s, [.sendClient client
          (.unsubscribeError request_id subscription_id NOT_FOUND_INVALID_SUBSCRIPTION_ID)])
  else
    match alookup s.subscription_id_to_subscription subscription_id with
    | some (owner, path) =>
      let s1 := { s with
        subscription_id_to_subscription :=
          aerase s.subscription_id_to_subscription subscription_id }
      let s2 := { s1 with
        addr_to_subscription_ids :=
          aupdate s1.addr_to_subscription_ids owner
            (fun l => l.filter (fun sub => sub ≠ subscription_id)) }
      let s3 := { s2 with
        path_to_subscription_id :=
          pupdate s2.path_to_subscription_id path
            (fun l => l.filter (fun sub => sub ≠ subscription_id)) }
      (s3, [.stopSubscription subscription_id,
            .sendClient client (.unsubscribeSuccess request_id subscription_id)])
    | none => (s, [])

/-- One iteration of the `UnsubscribeAll` loop: stop the subscription actor
and remove the id from the path index (only). -/
def unsubscribeAllStep (acc : SignalManager × List Effect) (id : SubId) :
    SignalManager × List Effect :=
  match alookup acc.1.subscription_id_to_subscription id with
  | some (_owner, path) =>
    ({ acc.1 with
        path_to_subscription_id :=
          pupdate acc.1.path_to_subscription_id path
            (fun l => l.filter (fun sub => sub ≠ id)) },
     acc.2 ++ [Effect.stopSubscription id])
  | none => acc

/-- Embeds `Handler<ClientMessage<UnsubscribeAll>> for SignalManager`: iterate
the session's subscription ids via `unsubscribeAllStep`; the session index and
the id map are left untouched. -/
def handleUnsubscribeAll (s : SignalManager) (client : SessionId)
    (request_id : Option ReqID) : SignalManager × List Effect :=
  let ids := (alookup s.addr_to_subscription_ids client).getD []
  let out := ids.foldl unsubscribeAllStep (s, [])
  match request_id with
  | some rid => (out.1, out.2 ++ [.sendClient client (.unsubscribeAllSuccess rid)])
  | none => out

/-! ## The engine's operation stream -/

/-- One operation submitted to the engine. -/
inductive Op where
  | subscribe (client : SessionId) (path : String) (request_id : ReqID)
  | unsubscribe (client : SessionId) (request_id : ReqID) (subscription_id : SubId)
  | unsubscribeAll (client : SessionId) (request_id : Option ReqID)
  | get (client : SessionId) (path : String) (request_id : ReqID)
  | updateSignal (path : String) (value : Json)

/-- The signal manager together with the id-minting source (`Uuid::new_v4()`
modelled as a fresh counter). -/
structure SystemState where
  mgr : SignalManager
  nextId : Nat

/-- Apply one operation. -/
def applyOp (st : SystemState) (op : Op) : SystemState × List Effect :=
  match op with
  | .subscribe c p rid =>
    let (m, e) := handleSubscribe st.mgr c p rid st.nextId
    (⟨m, st.nextId + 1⟩, e)
  | .unsubscribe c rid sid =>
    let (m, e) := handleUnsubscribe st.mgr c rid sid
    (⟨m, st.nextId⟩, e)
  | .unsubscribeAll c rid =>
    let (m, e) := handleUnsubscribeAll st.mgr c rid
    (⟨m, st.nextId⟩, e)
  | .get c p rid =>
    let (m, e) := handleGet st.mgr c p rid
    (⟨m, st.nextId⟩, e)
  | .updateSignal p v =>
    let (m, e) := handleUpdateSignal st.mgr p v
    (⟨m, st.nextId⟩, e)

/-- A fresh server: empty store, empty registry. -/
def initState : SystemState := ⟨⟨[], [], [], []⟩, 0⟩

/-- Run a sequence of operations from a given state. -/
def runFrom (st : SystemState) : List Op → SystemState
  | [] => st
  | op :: ops => runFrom (applyOp st op).1 ops

/-- Run a sequence of operations from server start. -/
def run (ops : List Op) : SystemState := runFrom initState ops

/-- The value an operation writes to the cache entry of `p` (case-insensitive
path comparison), if any. -/
def opUpdateValue (p : String) : Op → Option Json
  | .updateSignal q v => if pathEq q p then some v else none
  | _ => none

/-- The value of the most recent `UpdateSignal` for a path (case-insensitive)
in an operation sequence, if any. -/
def lastUpdate (p : String) : List Op → Option Json
  | [] => none
  | op :: ops =>
    match lastUpdate p ops with
    | some v => some v
    | none => opUpdateValue p op

/-! ## The per-subscription actor (`signal_manager::Subscription`) -/

/-- Embeds `signal_manager::Subscription`: per-subscription actor state.  The
`SpawnHandle` of the armed interval timer is modelled by the timer's period in
milliseconds. -/
structure Subscription where
  client_addr : SessionId
  path : String
  subscription_id : SubId
  filters : Option Filters
  latest_signal_value : Option Json
  last_signal_value_client : Option (Nat × Json)
  interval_handle : Option Nat

/-- Embeds `Actor::started` for `Subscription`: when the filter carries an interval,
arm `ctx.run_interval(Duration::from_secs(interval))`. -/
def Subscription.started (sub : Subscription) : Subscription :=
  match sub.filters with
  | some filters =>
    match filters.interval with
    | some i =>
      { sub with interval_handle :=
          sub.interval_handle.orElse (fun _ => some (durationFromSecs i)) }
    | none => sub
  | none => sub

/-- Embeds `Subscription::send_client_notification`: run the filter; on deliver,
advance `last_signal_value_client` and emit a `Subscription` success frame;
on skip do nothing; on filter error emit a `filter_invalid` subscription
error without advancing `last_signal_value_client`. -/
def sendClientNotification (now : Nat) (sub : Subscription) (signal_value : Json) :
    Subscription × List Effect :=
  match filterMatches now signal_value sub.last_signal_value_client sub.filters with
  | .ok true =>
    ({ sub with last_signal_value_client := some (now, signal_value) },
     [.sendClient sub.client_addr (.subscriptionNotify sub.subscription_id signal_value)])
  | .ok false => (sub, [])
  | .error .valueIsNotANumber =>
    (sub, [.sendClient sub.client_addr
            (.subscriptionError sub.subscription_id BAD_REQUEST_FILTER_INVALID)])

/-- Embeds `Handler<NotifySubscriber> for Subscription`: record the latest value;
deliver immediately unless this is an interval-based subscription. -/
def Subscription.handleNotify (now : Nat) (sub : Subscription) (v : Json) :
    Subscription × List Effect :=
  let sub := { sub with latest_signal_value := some v }
  if (sub.filters.map (fun x => x.interval.isNone)).getD true then
    sendClientNotification now sub v
  else
    (sub, [])

/-- The body of the `run_interval` closure: on each tick, attempt delivery of
the latest value, if any. -/
def Subscription.tick (now : Nat) (sub : Subscription) : Subscription × List Effect :=
  match sub.latest_signal_value with
  | some v => sendClientNotification now sub v
  | none => (sub, [])

/-! ## The request-id wire codec (`api_type.rs`)

`ReqID` travels as a JSON string.  Decoding tries a UUID parse first
(`uuid::Uuid::from_str`: hyphenated 8-4-4-4-12, plain 32-hex-digit, or
`urn:uuid:`-prefixed), then a `u64` decimal parse; encoding writes the decimal
or lowercase-hyphenated rendering. -/

/-- Lowercase hex digit character. -/
def hexChar (d : Nat) : Char :=
  if d < 10 then Char.ofNat (48 + d) else Char.ofNat (87 + d)

/-- Value of a hex digit character (either case), if it is one. -/
def hexVal (c : Char) : Option Nat :=
  if '0' ≤ c ∧ c ≤ '9' then some (c.toNat - 48)
  else if 'a' ≤ c ∧ c ≤ 'f' then some (c.toNat - 87)
  else if 'A' ≤ c ∧ c ≤ 'F' then some (c.toNat - 55)
  else none

/-- Fixed-width big-endian hex rendering of `n` (low `k` nibbles). -/
def toHexDigits : Nat → Nat → List Char
  | 0, _ => []
  | k + 1, n => hexChar (n / 16 ^ k % 16) :: toHexDigits k n

/-- Consume exactly `k` hex digits, accumulating their value. -/
def takeHex : Nat → List Char → Nat → Option (Nat × List Char)
  | 0, cs, acc => some (acc, cs)
  | _ + 1, [], _ => none
  | k + 1, c :: cs, acc =>
    match hexVal c with
    | some v => takeHex k cs (16 * acc + v)
    | none => none

/-- Consume one `'-'`. -/
def expectDash : List Char → Option (List Char)
  | [] => none
  | c :: cs => if c = '-' then some cs else none

/-- Parse the hyphenated `8-4-4-4-12` UUID text format. -/
def parseHyphenated (cs : List Char) : Option Nat := do
  let (f1, cs) ← takeHex 8 cs 0
  let cs ← expectDash cs
  let (f2, cs) ← takeHex 4 cs 0
  let cs ← expectDash cs
  let (f3, cs) ← takeHex 4 cs 0
  let cs ← expectDash cs
  let (f4, cs) ← takeHex 4 cs 0
  let cs ← expectDash cs
  let (f5, cs) ← takeHex 12 cs 0
  match cs with
  | [] => some ((((f1 * 16 ^ 4 + f2) * 16 ^ 4 + f3) * 16 ^ 4 + f4) * 16 ^ 12 + f5)
  | _ => none

/-- Parse the plain 32-hex-digit UUID text format. -/
def parseSimple (cs : List Char) : Option Nat := do
  let (v, cs) ← takeHex 32 cs 0
  match cs with
  | [] => some v
  | _ => none

/-- Remove a leading `urn:uuid:`, if present. -/
def stripUrn (cs : List Char) : List Char :=
  if cs.take 9 = "urn:uuid:".toList then cs.drop 9 else cs

/-- Embeds `uuid::Uuid::from_str`. -/
def uuidFromStr (s : String) : Option Nat :=
  let cs := stripUrn s.data
  match parseHyphenated cs with
  | some v => some v
  | none => parseSimple cs

/-- Embeds `Uuid::to_string`: lowercase hyphenated rendering. -/
def uuidToString (u : Nat) : String :=
  String.mk (toHexDigits 8 (u / 16 ^ 24) ++ '-' ::
    (toHexDigits 4 (u / 16 ^ 20) ++ '-' ::
      (toHexDigits 4 (u / 16 ^ 16) ++ '-' ::
        (toHexDigits 4 (u / 16 ^ 12) ++ '-' :: toHexDigits 12 u))))

/-- Decimal digit character. -/
def digitChar (d : Nat) : Char := Char.ofNat (48 + d)

/-- Value of a decimal digit character, if it is one. -/
def decVal (c : Char) : Option Nat :=
  if '0' ≤ c ∧ c ≤ '9' then some (c.toNat - 48) else none

/-- Embeds `u64`'s `Display`: decimal digits, no sign, no leading zeros. -/
def decDigits (n : Nat) : List Char :=
  if _h : n < 10 then [digitChar n]
  else decDigits (n / 10) ++ [digitChar (n % 10)]
decreasing_by exact Nat.div_lt_self (by omega) (by omega)

/-- Accumulate decimal digits; fails on a non-digit. -/
def parseDecCore : List Char → Nat → Option Nat
  | [], acc => some acc
  | c :: cs, acc =>
    match decVal c with
    | some d => parseDecCore cs (10 * acc + d)
    | none => none

/-- Strip one leading `+` sign, if present. -/
def stripPlus : List Char → List Char
  | [] => []
  | c :: cs => if c = '+' then cs else c :: cs

/-- Embeds `str::parse::<u64>()`: optional leading `+`, at least one digit, value
below 2^64. -/
def parseU64 (s : String) : Option Nat :=
  match stripPlus s.data with
  | [] => none
  | c :: cs =>
    match parseDecCore (c :: cs) 0 with
    | some v => if v < u64Mod then some v else none
    | none => none

/-- Embeds `impl Serialize for ReqID`: the string written to the wire. -/
def reqIDToString : ReqID → String
  | .int n => String.mk (decDigits n)
  | .uuid u => uuidToString u

/-- Embeds `impl Serialize for ReqID`: request ids are serialized as JSON strings. -/
def serializeReqID (r : ReqID) : Json := .str (reqIDToString r)

/-- Embeds `impl Deserialize for ReqID` (`visit_str`): UUID parse first, then
integer parse, otherwise reject. -/
def deserializeReqIDStr (s : String) : Option ReqID :=
  match uuidFromStr s with
  | some u => some (.uuid u)
  | none =>
    match parseU64 s with
    | some n => some (.int n)
    | none => none

/-! ## The registry invariant maintained by the engine -/

/-- The registry invariant maintained by the engine across its operation
stream: session-index entries point at subscriptions owned by that session,
path-index entries point at subscriptions registered under an equivalent
path, every mentioned subscription id is below the minting counter, and the
id map has no duplicate keys. -/
def GoodState (st : SystemState) : Prop :=
  (∀ c ids, alookup st.mgr.addr_to_subscription_ids c = some ids →
     ∀ id ∈ ids, ∃ p, alookup st.mgr.subscription_id_to_subscription id = some (c, p)) ∧
  (∀ q ids, plookup st.mgr.path_to_subscription_id q = some ids →
     ∀ id ∈ ids, ∃ c p, alookup st.mgr.subscription_id_to_subscription id = some (c, p) ∧
       pathKey q = pathKey p) ∧
  (∀ kv ∈ st.mgr.subscription_id_to_subscription, kv.1 < st.nextId) ∧
  (∀ kv ∈ st.mgr.addr_to_subscription_ids, ∀ id ∈ kv.2, id < st.nextId) ∧
  (∀ kv ∈ st.mgr.path_to_subscription_id, ∀ id ∈ kv.2, id < st.nextId) ∧
  (st.mgr.subscription_id_to_subscription.map Prod.fst).Nodup

/-! ## Theorems -/

/-- Claim C1 (code evaluation at the failing input).  With `minChange = 5`, a
last-delivered value of 100 and a candidate of 101 — a true change of 1 < 5 —
the unsigned `wrapping_sub` inside `SerdeNumber`'s subtraction makes
`is_min_change` pass, `matches` deliver, and the subscription actor emit the
notification: consecutive delivered values 100, 101 violate |v₂ − v₁| ≥ 5. -/
theorem min_change_wrapping_delivers_small_increase :
    is_min_change (Json.num (.posInt 101)) (some (0, Json.num (.posInt 100)))
        ⟨none, none, some (.posInt 5)⟩ = .ok true ∧
    filterMatches 0 (Json.num (.posInt 101)) (some (0, Json.num (.posInt 100)))
        (some ⟨none, none, some (.posInt 5)⟩) = .ok true ∧
    (sendClientNotification 0
        ⟨9, "p", 3, some ⟨none, none, some (.posInt 5)⟩, some (Json.num (.posInt 101)),
          some (0, Json.num (.posInt 100)), none⟩ (Json.num (.posInt 101))).2
      = [Effect.sendClient 9 (OutMsg.subscriptionNotify 3 (Json.num (.posInt 101)))] ∧
    101 - 100 < 5 :=
  ⟨rfl, rfl, rfl, by norm_num⟩

/-- Claim C2 (code evaluation at the failing input).  After `Subscribe` by
session 0 on path "a" (minting id 0), `UnsubscribeAll` stops the subscription
actor and empties the path-index entry, but both `addr_to_subscription_ids`
and `subscription_id_to_subscription` still map to the id. -/
theorem unsubscribeAll_leaves_session_and_id_indexes :
    (handleUnsubscribeAll (run [Op.subscribe 0 "a" (ReqID.int 1)]).mgr 0 none).2
        = [Effect.stopSubscription 0] ∧
    alookup (handleUnsubscribeAll (run [Op.subscribe 0 "a" (ReqID.int 1)]).mgr 0
        none).1.addr_to_subscription_ids 0 = some [0] ∧
    alookup (handleUnsubscribeAll (run [Op.subscribe 0 "a" (ReqID.int 1)]).mgr 0
        none).1.subscription_id_to_subscription 0 = some (0, "a") ∧
    plookup (handleUnsubscribeAll (run [Op.subscribe 0 "a" (ReqID.int 1)]).mgr 0
        none).1.path_to_subscription_id "a" = some [] :=
  ⟨rfl, rfl, rfl, rfl⟩

/-- Claim C3 (code evaluation at the failing input).  For `interval = 1` the
filter gate's threshold is `Duration::from_millis(1)` — it blocks at elapsed
0 ms and passes at elapsed 1 ms — while `Actor::started` arms the periodic
tick with `Duration::from_secs(1)` = 1000 ms: the two places disagree, so the
interval is not interpreted as milliseconds in both. -/
theorem interval_units_mismatch :
    (Subscription.started ⟨0, "p", 0, some ⟨some 1, none, none⟩, none, none,
        none⟩).interval_handle = some (durationFromSecs 1) ∧
    durationFromSecs 1 = 1000 ∧
    durationFromMillis 1 = 1 ∧
    interval 1 (some (0, Json.null)) ⟨some 1, none, none⟩ = true ∧
    interval 0 (some (0, Json.null)) ⟨some 1, none, none⟩ = false ∧
    durationFromSecs 1 ≠ durationFromMillis 1 :=
  ⟨rfl, rfl, rfl, rfl, rfl, by norm_num [durationFromSecs, durationFromMillis]⟩

/-- Claim C10: when the clock has moved backwards (`now < t`, so
`duration_since` fails) the interval gate passes regardless of the configured
interval, and it passes whenever no interval is configured. -/
theorem interval_gate_clock_backwards_passes (now t : Nat) (v : Json) (f : Filters)
    (last : Option (Nat × Json)) :
    (now < t → interval now (some (t, v)) f = true) ∧
    (f.interval = none → interval now last f = true) := by
  constructor
  · intro h
    simp [interval, durationSince, Nat.not_le.mpr h]
  · intro h
    cases last with
    | none => rfl
    | some p => simp [interval, durationSince, h]

/-- Witness for C10 at a concrete backwards-clock input. -/
theorem interval_gate_clock_backwards_passes_witness :
    interval 3 (some (5, Json.null)) ⟨some 1000, none, none⟩ = true :=
  (interval_gate_clock_backwards_passes 3 5 Json.null ⟨some 1000, none, none⟩ none).1
    (by norm_num)

/-- Binding an `ok` value just applies the continuation. -/
theorem exceptBind_ok {e α β : Type} (a : α) (f : α → Except e β) :
    (Except.ok a >>= f) = f a := rfl

/-- Binding an error short-circuits. -/
theorem exceptBind_error {e α β : Type} (err : e) (f : α → Except e β) :
    ((Except.error err : Except e α) >>= f) = Except.error err := rfl

/-- Claim C5: with no filter, `matches` delivers exactly the change gate
(`last_delivered` absent or deep-JSON-unequal candidate); with a filter, the
change gate stays necessary for delivery and an `ok` result is the
conjunction of the change gate with the interval, range and min-change
gates. -/
theorem matches_change_gate_spec (now : Nat) (val : Json) (last : Option (Nat × Json)) :
    filterMatches now val last none = Except.ok (changedExp val last) ∧
    (∀ f, filterMatches now val last (some f) = .ok true → changedExp val last = true) ∧
    (∀ f br bm, is_in_filter_range val f = .ok br → is_min_change val last f = .ok bm →
      filterMatches now val last (some f)
        = .ok (changedExp val last && (interval now last f && (br && bm)))) := by
  refine ⟨by simp [filterMatches]; rfl, ?_, ?_⟩
  · intro f h
    cases hr : is_in_filter_range val f with
    | error e =>
      simp [filterMatches, hr, exceptBind_error] at h
    | ok br =>
      cases hm : is_min_change val last f with
      | error e =>
        simp [filterMatches, hr, hm, exceptBind_ok, exceptBind_error] at h
      | ok bm =>
        simp [filterMatches, hr, hm, exceptBind_ok] at h
        exact h.1
  · intro f br bm hr hm
    simp [filterMatches, hr, hm, exceptBind_ok]

/-- Witness for C5 at a concrete input with a trivial filter. -/
theorem matches_change_gate_spec_witness :
    filterMatches 0 (Json.num (.posInt 1)) none (some ⟨none, none, none⟩)
      = .ok (changedExp (Json.num (.posInt 1)) none &&
          (interval 0 none ⟨none, none, none⟩ && (true && true))) :=
  (matches_change_gate_spec 0 (Json.num (.posInt 1)) none).2.2 ⟨none, none, none⟩
    true true rfl rfl

/-- Path equality coincides with equality of lowercase folds. -/
theorem pathEq_iff (p q : String) : pathEq p q = true ↔ pathKey p = pathKey q := by
  simp [pathEq]

/-- Claim C8: two paths are equal exactly when their lowercase folds are
equal; equal paths hash identically (the hash is taken of the fold); hence a
subscription registered under "Vehicle.Speed" receives the update pushed
under "vehicle.SPEED". -/
theorem path_case_insensitive_spec (p q : String) (hashFn : String → Nat) :
    (pathEq p q = true ↔ pathKey p = pathKey q) ∧
    (pathEq p q = true → pathHash hashFn p = pathHash hashFn q) ∧
    (handleUpdateSignal (run [Op.subscribe 7 "Vehicle.Speed" (ReqID.int 1)]).mgr
        "vehicle.SPEED" (Json.num (.posInt 3))).2
      = [Effect.notifySubscriber 0 (Json.num (.posInt 3))] := by
  refine ⟨pathEq_iff p q, ?_, rfl⟩
  intro h
  unfold pathHash
  rw [(pathEq_iff p q).1 h]

/-- Witness for C8: the differently-cased spellings hash identically. -/
theorem path_case_insensitive_spec_witness :
    pathHash String.length "Vehicle.Speed" = pathHash String.length "vehicle.SPEED" :=
  (path_case_insensitive_spec "Vehicle.Speed" "vehicle.SPEED" String.length).2.1 rfl

/-- Path lookup only depends on the lowercase fold of the query. -/
theorem plookup_congr {α : Type} (m : List (String × α)) {q q' : String}
    (h : pathKey q = pathKey q') : plookup m q = plookup m q' := by
  induction m with
  | nil => rfl
  | cons kv rest ih => simp [plookup, pathEq, h, ih]

/-- Lookup after a path-keyed insert. -/
theorem plookup_pinsert {α : Type} (m : List (String × α)) (q p : String) (v : α) :
    plookup (pinsert m q v) p =
      if pathKey q = pathKey p then some v else plookup m p := by
  induction m with
  | nil => simp [pinsert, plookup, pathEq]
  | cons kv rest ih =>
    obtain ⟨k, w⟩ := kv
    by_cases h1 : pathKey k = pathKey q
    · by_cases h2 : pathKey q = pathKey p
      · simp [pinsert, plookup, pathEq, h1, h2, h1.trans h2]
      · have h3 : ¬ pathKey k = pathKey p := fun hh => h2 ((h1.symm.trans hh))
        simp [pinsert, plookup, pathEq, h1, h2, h3]
    · by_cases h2 : pathKey k = pathKey p
      · have h3 : ¬ pathKey q = pathKey p := fun hh => h1 (h2.trans hh.symm)
        have h4 : ¬ pathKey p = pathKey q := fun hh => h3 hh.symm
        simp [pinsert, plookup, pathEq, h1, h2, h3, h4]
      · simp [pinsert, plookup, pathEq, h1, h2, ih]

/-- One `UnsubscribeAll` iteration touches only the path index. -/
theorem unsubscribeAllStep_fields (acc : SignalManager × List Effect) (id : SubId) :
    (unsubscribeAllStep acc id).1.signal_cache = acc.1.signal_cache ∧
    (unsubscribeAllStep acc id).1.addr_to_subscription_ids = acc.1.addr_to_subscription_ids ∧
    (unsubscribeAllStep acc id).1.subscription_id_to_subscription
      = acc.1.subscription_id_to_subscription := by
  unfold unsubscribeAllStep
  split <;> exact ⟨rfl, rfl, rfl⟩

/-- The whole `UnsubscribeAll` loop touches only the path index. -/
theorem foldl_unsubscribeAllStep_fields (ids : List SubId)
    (acc : SignalManager × List Effect) :
    (ids.foldl unsubscribeAllStep acc).1.signal_cache = acc.1.signal_cache ∧
    (ids.foldl unsubscribeAllStep acc).1.addr_to_subscription_ids
      = acc.1.addr_to_subscription_ids ∧
    (ids.foldl unsubscribeAllStep acc).1.subscription_id_to_subscription
      = acc.1.subscription_id_to_subscription := by
  induction ids generalizing acc with
  | nil => exact ⟨rfl, rfl, rfl⟩
  | cons id ids ih =>
    simp only [List.foldl_cons]
    obtain ⟨h1, h2, h3⟩ := ih (unsubscribeAllStep acc id)
    obtain ⟨g1, g2, g3⟩ := unsubscribeAllStep_fields acc id
    exact ⟨h1.trans g1, h2.trans g2, h3.trans g3⟩

/-- Embeds the fact that `UnsubscribeAll` leaves the cache, the session index
and the id map unchanged. -/
theorem handleUnsubscribeAll_fields (s : SignalManager) (c : SessionId)
    (r : Option ReqID) :
    (handleUnsubscribeAll s c r).1.signal_cache = s.signal_cache ∧
    (handleUnsubscribeAll s c r).1.addr_to_subscription_ids = s.addr_to_subscription_ids ∧
    (handleUnsubscribeAll s c r).1.subscription_id_to_subscription
      = s.subscription_id_to_subscription := by
  unfold handleUnsubscribeAll
  have h := foldl_unsubscribeAllStep_fields
    ((alookup s.addr_to_subscription_ids c).getD []) (s, [])
  cases r with
  | some rid => simpa using h
  | none => simpa using h

/-- Unsubscribing never touches the signal cache. -/
theorem handleUnsubscribe_cache (s : SignalManager) (c : SessionId) (rid : ReqID)
    (sid : SubId) :
    (handleUnsubscribe s c rid sid).1.signal_cache = s.signal_cache := by
  unfold handleUnsubscribe
  by_cases h : sid ∈ (alookup s.addr_to_subscription_ids c).getD []
  · cases halo : alookup s.subscription_id_to_subscription sid with
    | some e =>
      obtain ⟨owner, path⟩ := e
      simp [h, halo]
    | none => simp [h, halo]
  · simp [h]

/-- How one engine operation affects a cache lookup: only `UpdateSignal` on an
equivalent path changes it. -/
theorem applyOp_cache (st : SystemState) (op : Op) (p : String) :
    plookup (applyOp st op).1.mgr.signal_cache p =
      (match op with
        | .updateSignal q v =>
          if pathKey q = pathKey p then some v else plookup st.mgr.signal_cache p
        | _ => plookup st.mgr.signal_cache p) := by
  cases op with
  | subscribe c q rid => simp [applyOp, handleSubscribe]
  | unsubscribe c rid sid => simp [applyOp, handleUnsubscribe_cache]
  | unsubscribeAll c r => simp [applyOp, (handleUnsubscribeAll_fields st.mgr c r).1]
  | get c q rid =>
    simp only [applyOp]
    unfold handleGet
    split <;> rfl
  | updateSignal q v => simp [applyOp, handleUpdateSignal, plookup_pinsert]

/-- A cache lookup after running an operation sequence returns the most
recent matching update, falling back to the starting cache. -/
theorem runFrom_cache (ops : List Op) (st : SystemState) (p : String) :
    plookup (runFrom st ops).mgr.signal_cache p =
      (match lastUpdate p ops with
        | some v => some v
        | none => plookup st.mgr.signal_cache p) := by
  induction ops generalizing st with
  | nil => rfl
  | cons op ops ih =>
    rw [runFrom, ih, lastUpdate]
    cases h : lastUpdate p ops with
    | some v => rfl
    | none =>
      rw [applyOp_cache]
      cases op with
      | updateSignal q v =>
        by_cases hpq : pathKey q = pathKey p <;> simp [opUpdateValue, pathEq, hpq]
      | subscribe c q rid => rfl
      | unsubscribe c rid sid => rfl
      | unsubscribeAll c r => rfl
      | get c q rid => rfl

/-- Claim C6: before any `UpdateSignal` for a path, `Get` replies with the
`invalid_path` error; afterwards it replies with the most recently updated
value for that path (values are cached forever — no operation removes them). -/
theorem get_returns_latest_update (ops : List Op) (client : SessionId) (p : String)
    (rid : ReqID) :
    handleGet (run ops).mgr client p rid =
      ((run ops).mgr,
        [Effect.sendClient client
          (match lastUpdate p ops with
            | none => OutMsg.getError rid NOT_FOUND_INVALID_PATH
            | some v => OutMsg.getSuccess rid v)]) := by
  unfold handleGet
  rw [run, runFrom_cache ops initState p]
  cases hl : lastUpdate p ops with
  | some v => rfl
  | none => rfl

/-- Lookup distributes over list append. -/
theorem alookup_append {κ α : Type} [DecidableEq κ] (m m' : List (κ × α)) (k : κ) :
    alookup (m ++ m') k =
      (match alookup m k with
        | some v => some v
        | none => alookup m' k) := by
  induction m with
  | nil => rfl
  | cons kv rest ih =>
    obtain ⟨k0, v⟩ := kv
    by_cases h : k0 = k <;> simp [alookup, h, ih]

/-- Lookup after an in-place update. -/
theorem alookup_aupdate {κ α : Type} [DecidableEq κ] (m : List (κ × α)) (k k' : κ)
    (f : α → α) :
    alookup (aupdate m k f) k' =
      if k' = k then (alookup m k').map f else alookup m k' := by
  induction m with
  | nil => simp [aupdate, alookup]
  | cons kv rest ih =>
    obtain ⟨k0, v⟩ := kv
    rcases eq_or_ne k0 k with h0 | h0 <;> rcases eq_or_ne k0 k' with h1 | h1
    · subst h0; subst h1
      simp [aupdate, alookup]
    · subst h0
      simp [aupdate, alookup, h1, Ne.symm h1]
    · subst h1
      simp [aupdate, alookup, h0, Ne.symm h0]
    · simp [aupdate, alookup, h0, h1, ih]

/-- Lookup after a map insert. -/
theorem alookup_ainsert {κ α : Type} [DecidableEq κ] (m : List (κ × α)) (k k' : κ)
    (v : α) :
    alookup (ainsert m k v) k' = if k' = k then some v else alookup m k' := by
  induction m with
  | nil => simp [ainsert, alookup, eq_comm]
  | cons kv rest ih =>
    obtain ⟨k0, w⟩ := kv
    rcases eq_or_ne k0 k with h0 | h0 <;> rcases eq_or_ne k0 k' with h1 | h1
    · subst h0; subst h1
      simp [ainsert, alookup]
    · subst h0
      simp [ainsert, alookup, h1, Ne.symm h1]
    · subst h1
      simp [ainsert, alookup, h0, Ne.symm h0]
    · simp [ainsert, alookup, h0, h1, ih]

/-- Removing one key leaves the other keys' lookups unchanged. -/
theorem alookup_aerase_ne {κ α : Type} [DecidableEq κ] (m : List (κ × α)) {k k' : κ}
    (h : k' ≠ k) : alookup (aerase m k) k' = alookup m k' := by
  induction m with
  | nil => rfl
  | cons kv rest ih =>
    obtain ⟨k0, v⟩ := kv
    rcases eq_or_ne k0 k with h0 | h0
    · subst h0
      simp [aerase, alookup, Ne.symm h]
    · simp [aerase, alookup, h0, ih]

/-- Removal produces a sublist. -/
theorem aerase_sublist {κ α : Type} [DecidableEq κ] (m : List (κ × α)) (k : κ) :
    List.Sublist (aerase m k) m := by
  induction m with
  | nil => simp [aerase]
  | cons kv rest ih =>
    obtain ⟨k0, v⟩ := kv
    rcases eq_or_ne k0 k with h0 | h0
    · subst h0
      simp only [aerase, if_pos rfl]
      exact List.sublist_cons_self _ _
    · simp only [aerase, if_neg h0]
      exact List.Sublist.cons₂ _ ih

/-- A successful lookup exhibits a member. -/
theorem alookup_mem {κ α : Type} [DecidableEq κ] {m : List (κ × α)} {k : κ} {v : α}
    (h : alookup m k = some v) : (k, v) ∈ m := by
  induction m with
  | nil => simp [alookup] at h
  | cons kv rest ih =>
    obtain ⟨k0, w⟩ := kv
    rcases eq_or_ne k0 k with h0 | h0
    · subst h0
      have hv : w = v := by simpa [alookup] using h
      subst hv
      simp
    · simp only [alookup, if_neg h0] at h
      exact List.mem_cons_of_mem _ (ih h)

/-- A key that is absent looks up to `none`. -/
theorem alookup_eq_none {κ α : Type} [DecidableEq κ] {m : List (κ × α)} {k : κ}
    (h : k ∉ m.map Prod.fst) : alookup m k = none := by
  induction m with
  | nil => rfl
  | cons kv rest ih =>
    obtain ⟨k0, w⟩ := kv
    rw [List.map_cons] at h
    have h1 : k ≠ k0 := fun hh => h (by simp [hh])
    have h2 : k ∉ rest.map Prod.fst := fun hh => h (List.mem_cons_of_mem _ hh)
    simp [alookup, Ne.symm h1, ih h2]

/-- With duplicate-free keys, removal makes the removed key's lookup fail. -/
theorem alookup_aerase_self {κ α : Type} [DecidableEq κ] {m : List (κ × α)} (k : κ)
    (hnd : (m.map Prod.fst).Nodup) : alookup (aerase m k) k = none := by
  induction m with
  | nil => rfl
  | cons kv rest ih =>
    obtain ⟨k0, v⟩ := kv
    rw [List.map_cons, List.nodup_cons] at hnd
    rcases eq_or_ne k0 k with h0 | h0
    · subst h0
      simp only [aerase, if_pos rfl]
      exact alookup_eq_none hnd.1
    · simp [aerase, alookup, h0, ih hnd.2]

/-- The keys after an insert are among the old keys and the inserted key. -/
theorem ainsert_keys_subset {κ α : Type} [DecidableEq κ] (m : List (κ × α)) (k : κ) (v : α) :
    ∀ x ∈ (ainsert m k v).map Prod.fst, x ∈ m.map Prod.fst ∨ x = k := by
  induction m with
  | nil =>
    intro x hx
    simpa [ainsert] using hx
  | cons kw rest ih =>
    obtain ⟨k1, w1⟩ := kw
    intro x hx
    by_cases h1 : k1 = k
    · simp [ainsert, h1] at hx
      rcases hx with hx | hx
      · simp [hx, h1]
      · simp [hx]
    · simp [ainsert, h1] at hx
      rcases hx with hx | hx
      · simp [hx]
      · rcases ih x (by simpa using hx) with hh | hh
        · simp [hh]
        · simp [hh]

/-- Inserting preserves duplicate-freedom of the key list. -/
theorem ainsert_keys_nodup {κ α : Type} [DecidableEq κ] {m : List (κ × α)} (k : κ) (v : α)
    (hnd : (m.map Prod.fst).Nodup) : ((ainsert m k v).map Prod.fst).Nodup := by
  induction m with
  | nil => simp [ainsert]
  | cons kv rest ih =>
    obtain ⟨k0, w⟩ := kv
    rw [List.map_cons, List.nodup_cons] at hnd
    by_cases h0 : k0 = k
    · simp only [ainsert, if_pos h0, List.map_cons, List.nodup_cons]
      exact ⟨hnd.1, hnd.2⟩
    · simp only [ainsert, if_neg h0, List.map_cons, List.nodup_cons]
      refine ⟨?_, ih hnd.2⟩
      intro hk0
      rcases ainsert_keys_subset rest k v k0 hk0 with hh | hh
      · exact hnd.1 hh
      · exact h0 hh

/-- Updating one entry preserves a per-entry property, provided the update
function does. -/
theorem aupdate_pres {κ α : Type} [DecidableEq κ] {P : κ × α → Prop}
    (m : List (κ × α)) (k : κ) (f : α → α)
    (hm : ∀ kv ∈ m, P kv) (hf : ∀ v, P (k, v) → P (k, f v)) :
    ∀ kv ∈ aupdate m k f, P kv := by
  induction m with
  | nil => simp [aupdate]
  | cons kv0 rest ih =>
    obtain ⟨k0, v⟩ := kv0
    rcases eq_or_ne k0 k with h0 | h0
    · subst h0
      intro kv hkv
      simp only [aupdate, if_pos rfl] at hkv
      rcases List.mem_cons.1 hkv with hh | hh
      · exact hh ▸ hf v (hm _ (by simp))
      · exact hm _ (List.mem_cons_of_mem _ hh)
    · intro kv hkv
      simp only [aupdate, if_neg h0] at hkv
      rcases List.mem_cons.1 hkv with hh | hh
      · exact hh ▸ hm _ (by simp)
      · exact ih (fun kv h => hm _ (List.mem_cons_of_mem _ h)) kv hh

/-- Inserting preserves a per-entry property when the new entry satisfies it. -/
theorem ainsert_pres {κ α : Type} [DecidableEq κ] {P : κ × α → Prop}
    (m : List (κ × α)) (k : κ) (v : α)
    (hm : ∀ kv ∈ m, P kv) (hv : P (k, v)) :
    ∀ kv ∈ ainsert m k v, P kv := by
  induction m with
  | nil =>
    intro kv hkv
    simp only [ainsert, List.mem_singleton] at hkv
    exact hkv ▸ hv
  | cons kv0 rest ih =>
    obtain ⟨k0, w⟩ := kv0
    rcases eq_or_ne k0 k with h0 | h0
    · subst h0
      intro kv hkv
      simp only [ainsert, if_pos rfl] at hkv
      rcases List.mem_cons.1 hkv with hh | hh
      · exact hh ▸ hv
      · exact hm _ (List.mem_cons_of_mem _ hh)
    · intro kv hkv
      simp only [ainsert, if_neg h0] at hkv
      rcases List.mem_cons.1 hkv with hh | hh
      · exact hh ▸ hm _ (by simp)
      · exact ih (fun kv h => hm _ (List.mem_cons_of_mem _ h)) kv hh

/-- Updating one path entry preserves a per-entry property, provided the
update function does (at any key). -/
theorem pupdate_pres {α : Type} {P : String × α → Prop}
    (m : List (String × α)) (key : String) (f : α → α)
    (hm : ∀ kv ∈ m, P kv) (hf : ∀ k v, P (k, v) → P (k, f v)) :
    ∀ kv ∈ pupdate m key f, P kv := by
  induction m with
  | nil => simp [pupdate]
  | cons kv0 rest ih =>
    obtain ⟨k0, v⟩ := kv0
    intro kv hkv
    by_cases h0 : pathEq k0 key
    · simp only [pupdate, if_pos h0] at hkv
      rcases List.mem_cons.1 hkv with hh | hh
      · exact hh ▸ hf k0 v (hm _ (by simp))
      · exact hm _ (List.mem_cons_of_mem _ hh)
    · simp only [pupdate, if_neg h0] at hkv
      rcases List.mem_cons.1 hkv with hh | hh
      · exact hh ▸ hm _ (by simp)
      · exact ih (fun kv h => hm _ (List.mem_cons_of_mem _ h)) kv hh

/-- Path lookup after a path-keyed in-place update. -/
theorem plookup_pupdate {α : Type} (m : List (String × α)) (key q : String) (f : α → α) :
    plookup (pupdate m key f) q =
      if pathKey key = pathKey q then (plookup m q).map f else plookup m q := by
  induction m with
  | nil => simp [pupdate, plookup]
  | cons kv rest ih =>
    obtain ⟨k0, v⟩ := kv
    by_cases h0 : pathKey k0 = pathKey key
    · by_cases h1 : pathKey key = pathKey q
      · have h2 : pathKey k0 = pathKey q := h0.trans h1
        simp [pupdate, plookup, pathEq, h0, h1, h2]
      · have h2 : ¬ pathKey k0 = pathKey q := fun hh => h1 (h0.symm.trans hh)
        simp [pupdate, plookup, pathEq, h0, h1, h2]
    · by_cases h2 : pathKey k0 = pathKey q
      · have h1 : ¬ pathKey key = pathKey q := fun hh => h0 (h2.trans hh.symm)
        have h3 : ¬ pathKey q = pathKey key := fun hh => h1 hh.symm
        simp [pupdate, plookup, pathEq, h0, h1, h2, h3]
      · simp [pupdate, plookup, pathEq, h0, h2, ih]

/-- Path lookup distributes over list append. -/
theorem plookup_append {α : Type} (m m' : List (String × α)) (q : String) :
    plookup (m ++ m') q =
      (match plookup m q with
        | some v => some v
        | none => plookup m' q) := by
  induction m with
  | nil => rfl
  | cons kv rest ih =>
    obtain ⟨k0, v⟩ := kv
    by_cases h : pathEq k0 q <;> simp [plookup, h, ih]

/-- A successful path lookup exhibits a member with an equivalent key. -/
theorem plookup_mem {α : Type} {m : List (String × α)} {q : String} {v : α}
    (h : plookup m q = some v) : ∃ k, (k, v) ∈ m ∧ pathKey k = pathKey q := by
  induction m with
  | nil => simp [plookup] at h
  | cons kv rest ih =>
    obtain ⟨k0, w⟩ := kv
    by_cases h0 : pathEq k0 q
    · have hv : w = v := by simpa [plookup, h0] using h
      exact ⟨k0, by simp [hv], (pathEq_iff k0 q).1 h0⟩
    · simp only [plookup, if_neg h0] at h
      obtain ⟨k, hk, hkey⟩ := ih h
      exact ⟨k, List.mem_cons_of_mem _ hk, hkey⟩

/-- A `Get` never changes the engine state. -/
theorem handleGet_state (s : SignalManager) (c : SessionId) (p : String) (rid : ReqID) :
    (handleGet s c p rid).1 = s := by
  unfold handleGet
  split <;> rfl

/-- Outcome of `Unsubscribe` when the ownership check fails. -/
theorem handleUnsubscribe_error_eq (s : SignalManager) (c : SessionId) (rid : ReqID)
    (sid : SubId) (hmem : sid ∉ (alookup s.addr_to_subscription_ids c).getD []) :
    handleUnsubscribe s c rid sid =
      (s, [.sendClient c
            (.unsubscribeError rid sid NOT_FOUND_INVALID_SUBSCRIPTION_ID)]) := by
  unfold handleUnsubscribe
  simp [hmem]

/-- Outcome of `Unsubscribe` when the id passes the ownership check but is
missing from the id map (no reply at all). -/
theorem handleUnsubscribe_dangling_eq (s : SignalManager) (c : SessionId) (rid : ReqID)
    (sid : SubId) (hmem : sid ∈ (alookup s.addr_to_subscription_ids c).getD [])
    (halo : alookup s.subscription_id_to_subscription sid = none) :
    handleUnsubscribe s c rid sid = (s, []) := by
  unfold handleUnsubscribe
  simp [hmem, halo]

/-- Outcome of `Unsubscribe` on an owned, registered subscription. -/
theorem handleUnsubscribe_success_eq (s : SignalManager) (c : SessionId) (rid : ReqID)
    (sid : SubId) (owner : SessionId) (path : String)
    (hmem : sid ∈ (alookup s.addr_to_subscription_ids c).getD [])
    (halo : alookup s.subscription_id_to_subscription sid = some (owner, path)) :
    handleUnsubscribe s c rid sid =
      ({ signal_cache := s.signal_cache,
         addr_to_subscription_ids :=
           aupdate s.addr_to_subscription_ids owner
             (fun l => l.filter (fun sub => sub ≠ sid)),
         path_to_subscription_id :=
           pupdate s.path_to_subscription_id path
             (fun l => l.filter (fun sub => sub ≠ sid)),
         subscription_id_to_subscription :=
           aerase s.subscription_id_to_subscription sid },
       [.stopSubscription sid, .sendClient c (.unsubscribeSuccess rid sid)]) := by
  unfold handleUnsubscribe
  simp [hmem, halo]

/-- The engine invariant holds initially. -/
theorem goodState_init : GoodState initState := by
  refine ⟨?_, ?_, ?_, ?_, ?_, ?_⟩ <;> simp [initState, alookup, plookup, GoodState]

/-- A `Get` preserves the engine invariant. -/
theorem goodState_get (st : SystemState) (c : SessionId) (p : String) (rid : ReqID)
    (h : GoodState st) : GoodState (applyOp st (.get c p rid)).1 := by
  simpa [applyOp, handleGet_state] using h

/-- An `UpdateSignal` preserves the engine invariant (it only writes the
cache). -/
theorem goodState_update (st : SystemState) (p : String) (v : Json)
    (h : GoodState st) : GoodState (applyOp st (.updateSignal p v)).1 := by
  obtain ⟨g1, g2, g4a, g4b, g4c, g6⟩ := h
  exact ⟨g1, g2, g4a, g4b, g4c, g6⟩

/-- One `UnsubscribeAll` iteration preserves the path-index half of the
invariant (referring to the step's own id map, which it does not modify). -/
theorem goodState_unsubAll_step (acc : SignalManager × List Effect) (id : SubId) (n : Nat)
    (h2 : ∀ q ids, plookup acc.1.path_to_subscription_id q = some ids →
      ∀ i ∈ ids, ∃ c p, alookup acc.1.subscription_id_to_subscription i = some (c, p) ∧
        pathKey q = pathKey p)
    (h4 : ∀ kv ∈ acc.1.path_to_subscription_id, ∀ i ∈ kv.2, i < n) :
    (∀ q ids, plookup (unsubscribeAllStep acc id).1.path_to_subscription_id q = some ids →
      ∀ i ∈ ids, ∃ c p,
        alookup (unsubscribeAllStep acc id).1.subscription_id_to_subscription i
          = some (c, p) ∧ pathKey q = pathKey p) ∧
    (∀ kv ∈ (unsubscribeAllStep acc id).1.path_to_subscription_id, ∀ i ∈ kv.2, i < n) := by
  unfold unsubscribeAllStep
  cases halo : alookup acc.1.subscription_id_to_subscription id with
  | none => exact ⟨h2, h4⟩
  | some e =>
    obtain ⟨owner, path⟩ := e
    constructor
    · intro q ids hlook i hi
      simp only at hlook
      rw [plookup_pupdate] at hlook
      by_cases hkey : pathKey path = pathKey q
      · rw [if_pos hkey] at hlook
        obtain ⟨ids0, hids0, rfl⟩ := Option.map_eq_some'.1 hlook
        exact h2 q ids0 hids0 i (List.mem_filter.1 hi).1
      · rw [if_neg hkey] at hlook
        exact h2 q ids hlook i hi
    · intro kv hkv i hi
      refine pupdate_pres _ _ _ h4 ?_ kv hkv i hi
      intro k v hv j hj
      exact hv j (List.mem_filter.1 hj).1

/-- The `UnsubscribeAll` loop preserves the path-index half of the
invariant. -/
theorem goodState_unsubAll_fold (ids : List SubId) (acc : SignalManager × List Effect)
    (n : Nat)
    (h2 : ∀ q l, plookup acc.1.path_to_subscription_id q = some l →
      ∀ i ∈ l, ∃ c p, alookup acc.1.subscription_id_to_subscription i = some (c, p) ∧
        pathKey q = pathKey p)
    (h4 : ∀ kv ∈ acc.1.path_to_subscription_id, ∀ i ∈ kv.2, i < n) :
    (∀ q l, plookup (ids.foldl unsubscribeAllStep acc).1.path_to_subscription_id q
        = some l →
      ∀ i ∈ l, ∃ c p,
        alookup (ids.foldl unsubscribeAllStep acc).1.subscription_id_to_subscription i
          = some (c, p) ∧ pathKey q = pathKey p) ∧
    (∀ kv ∈ (ids.foldl unsubscribeAllStep acc).1.path_to_subscription_id,
      ∀ i ∈ kv.2, i < n) := by
  induction ids generalizing acc with
  | nil => exact ⟨h2, h4⟩
  | cons id rest ih =>
    simp only [List.foldl_cons]
    obtain ⟨s2, s4⟩ := goodState_unsubAll_step acc id n h2 h4
    exact ih (unsubscribeAllStep acc id) s2 s4

/-- The state produced by `UnsubscribeAll` is the fold state. -/
theorem handleUnsubscribeAll_fst (s : SignalManager) (c : SessionId) (r : Option ReqID) :
    (handleUnsubscribeAll s c r).1
      = (((alookup s.addr_to_subscription_ids c).getD []).foldl unsubscribeAllStep
          (s, [])).1 := by
  unfold handleUnsubscribeAll
  cases r <;> rfl

/-- An `UnsubscribeAll` preserves the engine invariant. -/
theorem goodState_unsubAll (st : SystemState) (c : SessionId) (r : Option ReqID)
    (h : GoodState st) : GoodState (applyOp st (.unsubscribeAll c r)).1 := by
  obtain ⟨g1, g2, g4a, g4b, g4c, g6⟩ := h
  have hfst := handleUnsubscribeAll_fst st.mgr c r
  have hfields := foldl_unsubscribeAllStep_fields
    ((alookup st.mgr.addr_to_subscription_ids c).getD []) (st.mgr, [])
  have hfold := goodState_unsubAll_fold
    ((alookup st.mgr.addr_to_subscription_ids c).getD []) (st.mgr, []) st.nextId g2 g4c
  refine ⟨?_, ?_, ?_, ?_, ?_, ?_⟩
  · show ∀ c' ids, alookup (applyOp st (.unsubscribeAll c r)).1.mgr.addr_to_subscription_ids
        c' = some ids → _
    simp only [applyOp]
    rw [hfst, hfields.2.1]
    intro c' ids hl i hi
    obtain ⟨p, hp⟩ := g1 c' ids hl i hi
    refine ⟨p, ?_⟩
    rw [hfields.2.2]
    exact hp
  · simp only [applyOp]
    rw [hfst]
    exact hfold.1
  · simp only [applyOp]
    rw [hfst, hfields.2.2]
    exact g4a
  · simp only [applyOp]
    rw [hfst, hfields.2.1]
    exact g4b
  · simp only [applyOp]
    rw [hfst]
    exact hfold.2
  · simp only [applyOp]
    rw [hfst, hfields.2.2]
    exact g6

/-- An `Unsubscribe` preserves the engine invariant. -/
theorem goodState_unsub (st : SystemState) (c : SessionId) (rid : ReqID) (sid : SubId)
    (h : GoodState st) : GoodState (applyOp st (.unsubscribe c rid sid)).1 := by
  obtain ⟨g1, g2, g4a, g4b, g4c, g6⟩ := h
  by_cases hmem : sid ∈ (alookup st.mgr.addr_to_subscription_ids c).getD []
  · cases halo : alookup st.mgr.subscription_id_to_subscription sid with
    | none =>
      have heq := handleUnsubscribe_dangling_eq st.mgr c rid sid hmem halo
      simp only [applyOp, heq]
      exact ⟨g1, g2, g4a, g4b, g4c, g6⟩
    | some e =>
      obtain ⟨owner, path⟩ := e
      have heq := handleUnsubscribe_success_eq st.mgr c rid sid owner path hmem halo
      simp only [applyOp, heq]
      refine ⟨?_, ?_, ?_, ?_, ?_, ?_⟩
      · intro c' ids hl i hi
        rw [alookup_aupdate] at hl
        by_cases hc : c' = owner
        · rw [if_pos hc] at hl
          obtain ⟨l0, hl0, hids⟩ := Option.map_eq_some'.1 hl
          subst hids
          have hi0 := List.mem_filter.1 hi
          have hne : i ≠ sid := by simpa using hi0.2
          obtain ⟨p, hp⟩ := g1 c' l0 hl0 i hi0.1
          exact ⟨p, by rw [alookup_aerase_ne _ hne]; exact hp⟩
        · rw [if_neg hc] at hl
          obtain ⟨p, hp⟩ := g1 c' ids hl i hi
          have hne : i ≠ sid := by
            intro hh
            subst hh
            have hx := halo.symm.trans hp
            simp at hx
            exact hc hx.1.symm
          exact ⟨p, by rw [alookup_aerase_ne _ hne]; exact hp⟩
      · intro q ids hl i hi
        rw [plookup_pupdate] at hl
        by_cases hkey : pathKey path = pathKey q
        · rw [if_pos hkey] at hl
          obtain ⟨l0, hl0, hids⟩ := Option.map_eq_some'.1 hl
          subst hids
          have hi0 := List.mem_filter.1 hi
          have hne : i ≠ sid := by simpa using hi0.2
          obtain ⟨c0, p0, hp0, hk0⟩ := g2 q l0 hl0 i hi0.1
          exact ⟨c0, p0, by rw [alookup_aerase_ne _ hne]; exact hp0, hk0⟩
        · rw [if_neg hkey] at hl
          obtain ⟨c0, p0, hp0, hk0⟩ := g2 q ids hl i hi
          have hne : i ≠ sid := by
            intro hh
            subst hh
            have hx := halo.symm.trans hp0
            simp at hx
            exact hkey (by rw [hx.2]; exact hk0.symm)
          exact ⟨c0, p0, by rw [alookup_aerase_ne _ hne]; exact hp0, hk0⟩
      · intro kv hkv
        exact g4a kv ((aerase_sublist _ _).subset hkv)
      · refine aupdate_pres _ _ _ g4b ?_
        intro v hv j hj
        exact hv j (List.mem_filter.1 hj).1
      · refine pupdate_pres _ _ _ g4c ?_
        intro k v hv j hj
        exact hv j (List.mem_filter.1 hj).1
      · exact List.Nodup.sublist ((aerase_sublist _ _).map _) g6
  · have heq := handleUnsubscribe_error_eq st.mgr c rid sid hmem
    simp only [applyOp, heq]
    exact ⟨g1, g2, g4a, g4b, g4c, g6⟩

/-- The state produced by `Subscribe`, component by component. -/
theorem handleSubscribe_fst (s : SignalManager) (c : SessionId) (q : String)
    (rid : ReqID) (n : SubId) :
    (handleSubscribe s c q rid n).1 =
      { signal_cache := s.signal_cache,
        addr_to_subscription_ids :=
          match alookup s.addr_to_subscription_ids c with
          | some _ => aupdate s.addr_to_subscription_ids c (fun l => l ++ [n])
          | none => s.addr_to_subscription_ids ++ [(c, [n])],
        path_to_subscription_id :=
          match plookup s.path_to_subscription_id q with
          | some _ => pupdate s.path_to_subscription_id q (fun l => l ++ [n])
          | none => s.path_to_subscription_id ++ [(q, [n])],
        subscription_id_to_subscription :=
          ainsert s.subscription_id_to_subscription n (c, q) } := rfl

/-- Session-index lookups after a `Subscribe`. -/
theorem subscribe_addr_lookup (addr : List (SessionId × List SubId)) (c c' : SessionId)
    (n : SubId) :
    alookup (match alookup addr c with
      | some _ => aupdate addr c (fun l => l ++ [n])
      | none => addr ++ [(c, [n])]) c' =
    if c' = c then some ((alookup addr c).getD [] ++ [n]) else alookup addr c' := by
  cases hc : alookup addr c with
  | some l =>
    rw [alookup_aupdate]
    by_cases h : c' = c
    · subst h
      rw [if_pos rfl, if_pos rfl, hc]
      rfl
    · rw [if_neg h, if_neg h]
  | none =>
    rw [alookup_append]
    by_cases h : c' = c
    · subst h
      rw [hc, if_pos rfl]
      simp [alookup, hc]
    · rw [if_neg h]
      cases hc' : alookup addr c' with
      | some v => simp [hc']
      | none => simp [hc', alookup, Ne.symm h]

/-- Path-index lookups after a `Subscribe`. -/
theorem subscribe_path_lookup {pm : List (String × List SubId)} (q q' : String)
    (n : SubId) :
    plookup (match plookup pm q with
      | some _ => pupdate pm q (fun l => l ++ [n])
      | none => pm ++ [(q, [n])]) q' =
    if pathKey q = pathKey q' then some ((plookup pm q).getD [] ++ [n])
    else plookup pm q' := by
  cases hq : plookup pm q with
  | some l =>
    rw [plookup_pupdate]
    by_cases h : pathKey q = pathKey q'
    · rw [if_pos h, if_pos h, plookup_congr pm h.symm, hq]
      rfl
    · rw [if_neg h, if_neg h]
  | none =>
    rw [plookup_append]
    by_cases h : pathKey q = pathKey q'
    · rw [if_pos h, ← plookup_congr pm h, hq]
      simp [plookup, pathEq, h, hq]
    · rw [if_neg h]
      cases hq' : plookup pm q' with
      | some v => simp [hq']
      | none =>
        have hne : ¬ pathEq q q' = true := by
          rw [pathEq_iff]
          exact h
        simp [hq', plookup, hne]

/-- A `Subscribe` preserves the engine invariant. -/
theorem goodState_subscribe (st : SystemState) (c : SessionId) (q : String) (rid : ReqID)
    (h : GoodState st) : GoodState (applyOp st (.subscribe c q rid)).1 := by
  obtain ⟨g1, g2, g4a, g4b, g4c, g6⟩ := h
  refine ⟨?_, ?_, ?_, ?_, ?_, ?_⟩ <;>
    simp only [applyOp, handleSubscribe_fst]
  · intro c' ids hl i hi
    rw [subscribe_addr_lookup] at hl
    rw [alookup_ainsert]
    by_cases hc : c' = c
    · rw [if_pos hc] at hl
      obtain rfl : (alookup st.mgr.addr_to_subscription_ids c).getD [] ++ [st.nextId]
          = ids := Option.some.inj hl
      rcases List.mem_append.1 hi with hi | hi
      · cases haddr : alookup st.mgr.addr_to_subscription_ids c with
        | none => rw [haddr] at hi; simp at hi
        | some l =>
          rw [haddr] at hi
          obtain ⟨p, hp⟩ := g1 c l haddr i hi
          have hlt : i < st.nextId := g4b _ (alookup_mem haddr) i hi
          rw [if_neg (Nat.ne_of_lt hlt)]
          exact ⟨p, hc ▸ hp⟩
      · have hin : i = st.nextId := by simpa using hi
        rw [if_pos hin]
        exact ⟨q, by rw [hc]⟩
    · rw [if_neg hc] at hl
      obtain ⟨p, hp⟩ := g1 c' ids hl i hi
      have hlt : i < st.nextId := g4b _ (alookup_mem hl) i hi
      rw [if_neg (Nat.ne_of_lt hlt)]
      exact ⟨p, hp⟩
  · intro q' ids hl i hi
    rw [subscribe_path_lookup] at hl
    by_cases hk : pathKey q = pathKey q'
    · rw [if_pos hk] at hl
      obtain rfl : (plookup st.mgr.path_to_subscription_id q).getD [] ++ [st.nextId]
          = ids := Option.some.inj hl
      rcases List.mem_append.1 hi with hi | hi
      · cases hpath : plookup st.mgr.path_to_subscription_id q with
        | none => rw [hpath] at hi; simp at hi
        | some l =>
          rw [hpath] at hi
          obtain ⟨c0, p0, hp0, hk0⟩ := g2 q l hpath i hi
          obtain ⟨k0, hk0mem, _⟩ := plookup_mem hpath
          have hlt : i < st.nextId := g4c _ hk0mem i hi
          rw [alookup_ainsert, if_neg (Nat.ne_of_lt hlt)]
          exact ⟨c0, p0, hp0, hk.symm.trans hk0⟩
      · have hin : i = st.nextId := by simpa using hi
        rw [alookup_ainsert, if_pos hin]
        exact ⟨c, q, rfl, hk.symm⟩
    · rw [if_neg hk] at hl
      obtain ⟨c0, p0, hp0, hk0⟩ := g2 q' ids hl i hi
      obtain ⟨k0, hk0mem, _⟩ := plookup_mem hl
      have hlt : i < st.nextId := g4c _ hk0mem i hi
      rw [alookup_ainsert, if_neg (Nat.ne_of_lt hlt)]
      exact ⟨c0, p0, hp0, hk0⟩
  · refine ainsert_pres _ _ _ (fun kv hkv => ?_) (Nat.lt_succ_self _)
    exact Nat.lt_succ_of_lt (g4a kv hkv)
  · cases haddr : alookup st.mgr.addr_to_subscription_ids c with
    | some l =>
      refine aupdate_pres _ _ _ (fun kv hkv j hj => ?_) (fun v hv j hj => ?_)
      · exact Nat.lt_succ_of_lt (g4b kv hkv j hj)
      · rcases List.mem_append.1 hj with hj | hj
        · exact hv j hj
        · simp at hj
          simp [hj]
    | none =>
      intro kv hkv j hj
      rcases List.mem_append.1 hkv with hkv | hkv
      · exact Nat.lt_succ_of_lt (g4b kv hkv j hj)
      · simp at hkv
        subst hkv
        simp at hj
        simp [hj]
  · cases hpath : plookup st.mgr.path_to_subscription_id q with
    | some l =>
      refine pupdate_pres _ _ _ (fun kv hkv j hj => ?_) (fun k v hv j hj => ?_)
      · exact Nat.lt_succ_of_lt (g4c kv hkv j hj)
      · rcases List.mem_append.1 hj with hj | hj
        · exact hv j hj
        · simp at hj
          simp [hj]
    | none =>
      intro kv hkv j hj
      rcases List.mem_append.1 hkv with hkv | hkv
      · exact Nat.lt_succ_of_lt (g4c kv hkv j hj)
      · simp at hkv
        subst hkv
        simp at hj
        simp [hj]
  · exact ainsert_keys_nodup _ _ g6

/-- Every engine operation preserves the invariant. -/
theorem goodState_applyOp (st : SystemState) (op : Op) (h : GoodState st) :
    GoodState (applyOp st op).1 := by
  cases op with
  | subscribe c q rid => exact goodState_subscribe st c q rid h
  | unsubscribe c rid sid => exact goodState_unsub st c rid sid h
  | unsubscribeAll c r => exact goodState_unsubAll st c r h
  | get c q rid => exact goodState_get st c q rid h
  | updateSignal q v => exact goodState_update st q v h

/-- The invariant holds in every state reachable from a given good state. -/
theorem goodState_runFrom (ops : List Op) (st : SystemState) (h : GoodState st) :
    GoodState (runFrom st ops) := by
  induction ops generalizing st with
  | nil => exact h
  | cons op ops ih => exact ih _ (goodState_applyOp st op h)

/-- The invariant holds in every state reachable from server start. -/
theorem goodState_run (ops : List Op) : GoodState (run ops) :=
  goodState_runFrom ops initState goodState_init

/-- Claim C4: in any invariant-respecting engine state (the invariant holds
in every reachable state, see `goodState_run`), an `Unsubscribe(session, id)`
whose id is not in the session's index replies with the 404
`invalid_subscriptionId` error and leaves the state untouched; one whose id
is in the session's index stops the subscription actor (cancelling its
interval task), removes the subscription from all three indexes and replies
with the unsubscribe success response — in both cases exactly one reply is
sent. -/
theorem unsubscribe_spec (st : SystemState) (c : SessionId) (rid : ReqID) (sid : SubId)
    (hg : GoodState st) :
    (sid ∉ (alookup st.mgr.addr_to_subscription_ids c).getD [] →
      handleUnsubscribe st.mgr c rid sid =
        (st.mgr, [Effect.sendClient c
          (OutMsg.unsubscribeError rid sid NOT_FOUND_INVALID_SUBSCRIPTION_ID)])) ∧
    (sid ∈ (alookup st.mgr.addr_to_subscription_ids c).getD [] →
      (handleUnsubscribe st.mgr c rid sid).2 =
        [Effect.stopSubscription sid,
         Effect.sendClient c (OutMsg.unsubscribeSuccess rid sid)] ∧
      alookup (handleUnsubscribe st.mgr c rid sid).1.subscription_id_to_subscription sid
        = none ∧
      (∀ sess ids, alookup (handleUnsubscribe st.mgr c rid
          sid).1.addr_to_subscription_ids sess = some ids → sid ∉ ids) ∧
      (∀ q ids, plookup (handleUnsubscribe st.mgr c rid sid).1.path_to_subscription_id q
          = some ids → sid ∉ ids)) := by
  obtain ⟨g1, g2, g4a, g4b, g4c, g6⟩ := hg
  constructor
  · intro hmem
    exact handleUnsubscribe_error_eq st.mgr c rid sid hmem
  · intro hmem
    have hsome : ∃ l, alookup st.mgr.addr_to_subscription_ids c = some l ∧ sid ∈ l := by
      cases hc : alookup st.mgr.addr_to_subscription_ids c with
      | none => rw [hc] at hmem; simp at hmem
      | some l => rw [hc] at hmem; exact ⟨l, rfl, hmem⟩
    obtain ⟨l, hl, hsl⟩ := hsome
    obtain ⟨path, hpath⟩ := g1 c l hl sid hsl
    have heq := handleUnsubscribe_success_eq st.mgr c rid sid c path hmem hpath
    rw [heq]
    refine ⟨rfl, ?_, ?_, ?_⟩
    · exact alookup_aerase_self sid g6
    · intro sess ids hlk
      rw [alookup_aupdate] at hlk
      by_cases hs : sess = c
      · rw [if_pos hs] at hlk
        obtain ⟨l0, hl0, hids⟩ := Option.map_eq_some'.1 hlk
        subst hids
        intro hin
        have hx := (List.mem_filter.1 hin).2
        simp at hx
      · rw [if_neg hs] at hlk
        intro hin
        obtain ⟨p, hp⟩ := g1 sess ids hlk sid hin
        have hx := hpath.symm.trans hp
        simp at hx
        exact hs hx.1.symm
    · intro q ids hlk
      rw [plookup_pupdate] at hlk
      by_cases hk : pathKey path = pathKey q
      · rw [if_pos hk] at hlk
        obtain ⟨l0, hl0, hids⟩ := Option.map_eq_some'.1 hlk
        subst hids
        intro hin
        have hx := (List.mem_filter.1 hin).2
        simp at hx
      · rw [if_neg hk] at hlk
        intro hin
        obtain ⟨c0, p0, hp0, hk0⟩ := g2 q ids hlk sid hin
        have hx := hpath.symm.trans hp0
        simp at hx
        exact hk (by rw [hx.2]; exact hk0.symm)

/-- Witness for C4 in the reachable state with one subscription. -/
theorem unsubscribe_spec_witness :
    (handleUnsubscribe (run [Op.subscribe 0 "a" (ReqID.int 1)]).mgr 0 (ReqID.int 2) 0).2 =
      [Effect.stopSubscription 0,
       Effect.sendClient 0 (OutMsg.unsubscribeSuccess (ReqID.int 2) 0)] :=
  ((unsubscribe_spec (run [Op.subscribe 0 "a" (ReqID.int 1)]) 0 (ReqID.int 2) 0
      (goodState_run [Op.subscribe 0 "a" (ReqID.int 1)])).2 (by decide)).1

/-- Claim C9: `UnsubscribeAll` leaves the session index and the id map
untouched, so a subsequent `Unsubscribe` from the same session for one of
the already-cancelled ids still passes the ownership check and replies with
the unsubscribe success response rather than `invalid_subscriptionId`. -/
theorem unsubscribe_after_unsubscribeAll_succeeds (m : SignalManager) (c : SessionId)
    (rid : ReqID) (sid : SubId) (ids : List SubId) (e : SessionId × String)
    (h1 : alookup m.addr_to_subscription_ids c = some ids) (h2 : sid ∈ ids)
    (h3 : alookup m.subscription_id_to_subscription sid = some e) :
    (handleUnsubscribe (handleUnsubscribeAll m c none).1 c rid sid).2 =
      [Effect.stopSubscription sid,
       Effect.sendClient c (OutMsg.unsubscribeSuccess rid sid)] := by
  obtain ⟨owner, path⟩ := e
  have ha := (handleUnsubscribeAll_fields m c none).2.1
  have hs := (handleUnsubscribeAll_fields m c none).2.2
  have hmem : sid ∈ (alookup
      (handleUnsubscribeAll m c none).1.addr_to_subscription_ids c).getD [] := by
    rw [ha, h1]
    exact h2
  have halo : alookup
      (handleUnsubscribeAll m c none).1.subscription_id_to_subscription sid
        = some (owner, path) := by
    rw [hs]
    exact h3
  rw [handleUnsubscribe_success_eq _ c rid sid owner path hmem halo]

/-- Witness for C9 in the reachable state with one subscription. -/
theorem unsubscribe_after_unsubscribeAll_succeeds_witness :
    (handleUnsubscribe
        (handleUnsubscribeAll (run [Op.subscribe 0 "a" (ReqID.int 1)]).mgr 0 none).1 0
        (ReqID.int 2) 0).2 =
      [Effect.stopSubscription 0,
       Effect.sendClient 0 (OutMsg.unsubscribeSuccess (ReqID.int 2) 0)] :=
  unsubscribe_after_unsubscribeAll_succeeds (run [Op.subscribe 0 "a" (ReqID.int 1)]).mgr
    0 (ReqID.int 2) 0 [0] (0, "a") rfl (by decide) rfl

/-- Hex digits decode back to their value. -/
theorem hexVal_hexChar {d : Nat} (hd : d < 16) : hexVal (hexChar d) = some d := by
  interval_cases d <;> decide

/-- Hex digit characters are never a dash. -/
theorem hexChar_ne_dash {d : Nat} (hd : d < 16) : hexChar d ≠ '-' := by
  interval_cases d <;> decide

/-- Hex digit characters are never the letter `u`. -/
theorem hexChar_ne_u {d : Nat} (hd : d < 16) : hexChar d ≠ 'u' := by
  interval_cases d <;> decide

/-- Decimal digits decode back to their value. -/
theorem decVal_digitChar {d : Nat} (hd : d < 10) : decVal (digitChar d) = some d := by
  interval_cases d <;> decide

/-- Decimal digit characters are hex digits with the same value. -/
theorem hexVal_digitChar {d : Nat} (hd : d < 10) : hexVal (digitChar d) = some d := by
  interval_cases d <;> decide

/-- Decimal digit characters are never a dash, a plus, or the letter `u`. -/
theorem digitChar_ne {d : Nat} (hd : d < 10) :
    digitChar d ≠ '-' ∧ digitChar d ≠ '+' ∧ digitChar d ≠ 'u' := by
  interval_cases d <;> exact ⟨by decide, by decide, by decide⟩

/-- Consuming a fixed-width hex rendering recovers the low nibbles. -/
theorem takeHex_toHexDigits (k : Nat) :
    ∀ (n acc : Nat) (rest : List Char),
      takeHex k (toHexDigits k n ++ rest) acc = some (acc * 16 ^ k + n % 16 ^ k, rest) := by
  induction k with
  | zero =>
    intro n acc rest
    simp [toHexDigits, takeHex, Nat.mod_one]
  | succ k ih =>
    intro n acc rest
    have hd : n / 16 ^ k % 16 < 16 := Nat.mod_lt _ (by norm_num)
    rw [toHexDigits]
    simp only [List.cons_append, List.append_eq, takeHex, hexVal_hexChar hd]
    rw [ih]
    have hmod : n % 16 ^ (k + 1) = n % 16 ^ k + 16 ^ k * (n / 16 ^ k % 16) := by
      rw [pow_succ]
      exact Nat.mod_mul
    rw [hmod, pow_succ]
    congr 1
    ring_nf

/-- A successful `takeHex` consumed exactly `k` characters. -/
theorem takeHex_structure (k : Nat) :
    ∀ (cs : List Char) (acc v : Nat) (rest : List Char),
      takeHex k cs acc = some (v, rest) →
      ∃ pre, cs = pre ++ rest ∧ pre.length = k := by
  induction k with
  | zero =>
    intro cs acc v rest h
    simp only [takeHex, Option.some.injEq, Prod.mk.injEq] at h
    exact ⟨[], by simp [h.2], rfl⟩
  | succ k ih =>
    intro cs acc v rest h
    cases cs with
    | nil => simp [takeHex] at h
    | cons c cs' =>
      simp only [takeHex] at h
      cases hv : hexVal c with
      | none => rw [hv] at h; simp at h
      | some d =>
        rw [hv] at h
        obtain ⟨pre, hpre, hlen⟩ := ih cs' _ v rest h
        exact ⟨c :: pre, by simp [hpre], by simp [hlen]⟩

/-- Every character of a decimal rendering is a decimal digit. -/
theorem decDigits_all (n : Nat) : ∀ c ∈ decDigits n, ∃ d, d < 10 ∧ c = digitChar d := by
  induction n using Nat.strong_induction_on with
  | _ n ih =>
    rw [decDigits.eq_def]
    by_cases h : n < 10
    · simp only [dif_pos h, List.mem_singleton]
      intro c hc
      exact ⟨n, h, hc⟩
    · simp only [dif_neg h]
      intro c hc
      rcases List.mem_append.1 hc with hc | hc
      · exact ih (n / 10) (Nat.div_lt_self (by omega) (by omega)) c hc
      · simp only [List.mem_singleton] at hc
        exact ⟨n % 10, Nat.mod_lt _ (by omega), hc⟩

/-- A decimal rendering is never empty. -/
theorem decDigits_ne_nil (n : Nat) : decDigits n ≠ [] := by
  rw [decDigits.eq_def]
  by_cases h : n < 10
  · simp [dif_pos h]
  · simp [dif_neg h]

/-- A decimal rendering of a number below `10^k` has at most `k` digits. -/
theorem decDigits_len (k : Nat) :
    ∀ n, n < 10 ^ k → 1 ≤ k → (decDigits n).length ≤ k := by
  induction k with
  | zero => omega
  | succ k ih =>
    intro n hn _
    rw [decDigits.eq_def]
    by_cases h : n < 10
    · simp [dif_pos h]
    · simp only [dif_neg h, List.length_append, List.length_singleton]
      have hk : 1 ≤ k := by
        by_contra hk
        have : k = 0 := by omega
        subst this
        simp at hn
        omega
      have hdiv : n / 10 < 10 ^ k := by
        have : n < 10 ^ k * 10 := by
          rw [← pow_succ]
          exact hn
        exact Nat.div_lt_of_lt_mul (by omega)
      have := ih (n / 10) hdiv hk
      omega

/-- Parsing decimal digits distributes over append. -/
theorem parseDecCore_append (xs : List Char) :
    ∀ (ys : List Char) (acc : Nat),
      parseDecCore (xs ++ ys) acc =
        (match parseDecCore xs acc with
          | some v => parseDecCore ys v
          | none => none) := by
  induction xs with
  | nil => intro ys acc; rfl
  | cons c xs ih =>
    intro ys acc
    simp only [List.cons_append, parseDecCore]
    cases hv : decVal c with
    | none => rfl
    | some d => exact ih ys (10 * acc + d)

/-- Parsing a decimal rendering recovers the value. -/
theorem parseDecCore_decDigits (n : Nat) :
    ∀ acc, parseDecCore (decDigits n) acc
      = some (acc * 10 ^ (decDigits n).length + n) := by
  induction n using Nat.strong_induction_on with
  | _ n ih =>
    intro acc
    rw [decDigits.eq_def]
    by_cases h : n < 10
    · simp only [dif_pos h, parseDecCore, decVal_digitChar h, List.length_singleton]
      congr 1
      ring
    · simp only [dif_neg h, parseDecCore_append, List.length_append,
        List.length_singleton]
      rw [ih (n / 10) (Nat.div_lt_self (by omega) (by omega)) acc]
      have hm : n % 10 < 10 := Nat.mod_lt _ (by omega)
      simp only [parseDecCore, decVal_digitChar hm]
      congr 1
      have hlen := decDigits_ne_nil (n / 10)
      have : 10 * (n / 10) + n % 10 = n := by omega
      rw [pow_succ]
      calc 10 * (acc * 10 ^ (decDigits (n / 10)).length + n / 10) + n % 10
      _ = acc * (10 ^ (decDigits (n / 10)).length * 10) + (10 * (n / 10) + n % 10) := by
        ring
      _ = acc * (10 ^ (decDigits (n / 10)).length * 10) + n := by rw [this]

/-- The `urn:uuid:` strip leaves any string not starting with `u` alone. -/
theorem stripUrn_cons_ne {c : Char} (cs : List Char) (h : c ≠ 'u') :
    stripUrn (c :: cs) = c :: cs := by
  unfold stripUrn
  rw [if_neg]
  intro hh
  have hurn : "urn:uuid:".toList = 'u' :: "rn:uuid:".toList := rfl
  have h9 : (c :: cs).take 9 = c :: cs.take 8 := rfl
  rw [h9, hurn] at hh
  exact h (List.cons.injEq .. ▸ hh).1

/-- A dash is only consumed from a dash. -/
theorem expectDash_digit {d : Nat} (hd : d < 10) (cs : List Char) :
    expectDash (digitChar d :: cs) = none := by
  simp [expectDash, (digitChar_ne hd).1]

/-- The hyphenated UUID parse rejects any all-decimal-digit string. -/
theorem parseHyphenated_digits_none (cs : List Char)
    (hall : ∀ c ∈ cs, ∃ d, d < 10 ∧ c = digitChar d) :
    parseHyphenated cs = none := by
  unfold parseHyphenated
  cases h8 : takeHex 8 cs 0 with
  | none => rfl
  | some pr =>
    obtain ⟨v, rest⟩ := pr
    obtain ⟨pre, hpre, hlen⟩ := takeHex_structure 8 cs 0 v rest h8
    cases rest with
    | nil => simp [expectDash]
    | cons c rest' =>
      have hc : c ∈ cs := by
        rw [hpre]
        exact List.mem_append_right _ (by simp)
      obtain ⟨d, hd, rfl⟩ := hall c hc
      simp [expectDash_digit hd]

/-- The simple 32-hex-digit UUID parse rejects any short string. -/
theorem parseSimple_short_none (cs : List Char) (hshort : cs.length < 32) :
    parseSimple cs = none := by
  unfold parseSimple
  cases h : takeHex 32 cs 0 with
  | none => rfl
  | some pr =>
    obtain ⟨v, rest⟩ := pr
    obtain ⟨pre, hpre, hlen⟩ := takeHex_structure 32 cs 0 v rest h
    exfalso
    rw [hpre] at hshort
    simp [hlen] at hshort

/-- Decimal renderings of `u64` values are rejected by the UUID parse. -/
theorem uuidFromStr_decDigits_none {n : Nat} (hn : n < u64Mod) :
    uuidFromStr (String.mk (decDigits n)) = none := by
  have hall := decDigits_all n
  have hne := decDigits_ne_nil n
  obtain ⟨c, cs, hcons⟩ := List.exists_cons_of_ne_nil hne
  have hdata : (String.mk (decDigits n)).data = decDigits n := rfl
  have hu : c ≠ 'u' := by
    obtain ⟨d, hd, hcd⟩ := hall c (by rw [hcons]; simp)
    rw [hcd]
    exact (digitChar_ne hd).2.2
  have hstrip : stripUrn (decDigits n) = decDigits n := by
    rw [hcons]
    exact stripUrn_cons_ne cs hu
  have hlen : (decDigits n).length < 32 := by
    have h20 : n < 10 ^ 20 := by
      have : u64Mod < 10 ^ 20 := by norm_num [u64Mod]
      omega
    have := decDigits_len 20 n h20 (by omega)
    omega
  unfold uuidFromStr
  rw [hdata, hstrip]
  show (match parseHyphenated (decDigits n) with
    | some v => some v
    | none => parseSimple (decDigits n)) = none
  rw [parseHyphenated_digits_none _ hall, parseSimple_short_none _ hlen]

/-- The `+`-strip leaves any digit-headed string alone. -/
theorem stripPlus_digits {n : Nat} : stripPlus (decDigits n) = decDigits n := by
  obtain ⟨c, cs, hcons⟩ := List.exists_cons_of_ne_nil (decDigits_ne_nil n)
  obtain ⟨d, hd, hcd⟩ := decDigits_all n c (by rw [hcons]; simp)
  rw [hcons, hcd]
  simp [stripPlus, (digitChar_ne hd).2.1]

/-- Parsing the decimal rendering of a `u64` value recovers it. -/
theorem parseU64_decDigits {n : Nat} (hn : n < u64Mod) :
    parseU64 (String.mk (decDigits n)) = some n := by
  obtain ⟨c, cs, hcons⟩ := List.exists_cons_of_ne_nil (decDigits_ne_nil n)
  have hparse : parseDecCore (decDigits n) 0 = some n := by
    rw [parseDecCore_decDigits]
    simp
  unfold parseU64
  have hdata : (String.mk (decDigits n)).data = decDigits n := rfl
  rw [hdata, stripPlus_digits, hcons]
  show (match parseDecCore (c :: cs) 0 with
    | some v => if v < u64Mod then some v else none
    | none => none) = some n
  rw [← hcons, hparse]
  simp [hn]

/-- Consuming an exact-width hex rendering leaves nothing. -/
theorem takeHex_toHexDigits_nil (k n acc : Nat) :
    takeHex k (toHexDigits k n) acc = some (acc * 16 ^ k + n % 16 ^ k, []) := by
  rw [← List.append_nil (toHexDigits k n)]
  exact takeHex_toHexDigits k n acc []

/-- Parsing the hyphenated rendering of a 128-bit value recovers it. -/
theorem parseHyphenated_uuidToString {u : Nat} (hu : u < uuidMod) :
    parseHyphenated (toHexDigits 8 (u / 16 ^ 24) ++ '-' ::
      (toHexDigits 4 (u / 16 ^ 20) ++ '-' ::
        (toHexDigits 4 (u / 16 ^ 16) ++ '-' ::
          (toHexDigits 4 (u / 16 ^ 12) ++ '-' :: toHexDigits 12 u)))) = some u := by
  have h32 : u < 16 ^ 32 := by
    have h : uuidMod = 16 ^ 32 := by norm_num [uuidMod]
    omega
  unfold parseHyphenated
  simp [takeHex_toHexDigits, takeHex_toHexDigits_nil, expectDash]
  omega

/-- The `urn:uuid:` strip leaves a hex rendering alone. -/
theorem stripUrn_hex (x : Nat) (rest : List Char) :
    stripUrn (toHexDigits 8 x ++ rest) = toHexDigits 8 x ++ rest := by
  have hd : x / 16 ^ 7 % 16 < 16 := Nat.mod_lt _ (by norm_num)
  rw [toHexDigits, List.cons_append]
  exact stripUrn_cons_ne _ (hexChar_ne_u hd)

/-- Parsing the lowercase hyphenated rendering of a UUID recovers it. -/
theorem uuidFromStr_uuidToString {u : Nat} (hu : u < uuidMod) :
    uuidFromStr (uuidToString u) = some u := by
  have hdata : (uuidToString u).data =
      toHexDigits 8 (u / 16 ^ 24) ++ '-' ::
        (toHexDigits 4 (u / 16 ^ 20) ++ '-' ::
          (toHexDigits 4 (u / 16 ^ 16) ++ '-' ::
            (toHexDigits 4 (u / 16 ^ 12) ++ '-' :: toHexDigits 12 u))) := rfl
  unfold uuidFromStr
  rw [hdata, stripUrn_hex]
  simp only [parseHyphenated_uuidToString hu]

/-- Claim C7: decoding accepts exactly the strings accepted by the UUID parse
(tried first) or the `u64` decimal parse and rejects everything else;
encoding always writes the id as a JSON string; decoding "42" yields the
integer 42 which re-encodes to the identical string "42"; and encoding any
representable request id and decoding it back yields an equal id. -/
theorem reqid_codec_spec :
    (∀ r, ReqIDWf r → deserializeReqIDStr (reqIDToString r) = some r) ∧
    (∀ r, serializeReqID r = Json.str (reqIDToString r)) ∧
    deserializeReqIDStr "42" = some (ReqID.int 42) ∧
    reqIDToString (ReqID.int 42) = "42" ∧
    (∀ s, deserializeReqIDStr s = none ↔ uuidFromStr s = none ∧ parseU64 s = none) := by
  refine ⟨?_, fun r => rfl, rfl, ?_, ?_⟩
  · intro r hr
    cases r with
    | int n =>
      have hn : n < u64Mod := hr
      unfold deserializeReqIDStr reqIDToString
      rw [uuidFromStr_decDigits_none hn, parseU64_decDigits hn]
    | uuid v =>
      have hv : v < uuidMod := hr
      unfold deserializeReqIDStr reqIDToString
      rw [uuidFromStr_uuidToString hv]
  · simp [reqIDToString, decDigits, digitChar]
  · intro s
    unfold deserializeReqIDStr
    cases hu : uuidFromStr s with
    | some v => simp
    | none =>
      cases hp : parseU64 s with
      | some n => simp
      | none => simp

/-- Witness for C7: a concrete UUID id round-trips through the codec. -/
theorem reqid_codec_spec_witness :
    deserializeReqIDStr (reqIDToString (ReqID.uuid 5)) = some (ReqID.uuid 5) :=
  reqid_codec_spec.1 (ReqID.uuid 5)
    (by show (5 : Nat) < uuidMod; norm_num [uuidMod])
